import Mathlib

/-!
# sc2-rsu: the replay detection and upload pipeline of `cmd/root.go`

A shallow embedding of the text-mode pipeline of `cmd/root.go`:

* the watcher event loop of `rootCmd.RunE` (lines 77-99),
* `findReplaysRoot` (lines 124-163) and `getWatchPaths` (lines 165-203),
* `handleReplay` (lines 205-236) and `newWatcher` (lines 238-253),
* `watchReplayStatus` (lines 255-273).

The functions talk to the outside world (the clock, the filesystem, the
remote API, the terminal, the logger).  Every call whose answer the code
looks at is answered from a script: a list with the answers in the order
in which the calls are made.  Every function returns the list of effects it
performed, in order.  A loop that needs an answer the script no longer has
stops there: the run is then reported as still being inside the loop, and
the trace holds the iterations that were completed.  The prompt loop of
`findReplaysRoot` reads the bytes typed at the terminal through Go's
`bufio.Reader.ReadLine`, which is embedded with the 16-byte buffer that
`bufio.NewReaderSize(os.Stdin, 1)` gets.

Go `int64` and `int` values are modelled by `Int`; the code only compares
them and subtracts one from a positive `int`, so no wrap-around can occur.
-/

set_option autoImplicit false

namespace Sc2Rsu

/-! ## Data model -/

/-- Go `error` values, identified by their message (what `%v` prints). -/
abbrev GoError := String

/-- The constant `validReplaySize = 26 * 1024` (root.go:28). -/
def validReplaySize : Int := 26 * 1024

/-- The effects of the pipeline that are visible from outside, in the order
in which the code performs them.  Log calls keep the format string of the
source and the printed arguments. -/
inductive Effect where
  /-- `time.Sleep` of the given number of milliseconds -/
  | sleep (ms : Nat)
  /-- `os.Stat(path)` -/
  | stat (path : String)
  /-- `sc2api.UploadReplay(path)` -/
  | uploadReplay (path : String)
  /-- `sc2api.GetReplayStatus(rqid)` -/
  | getReplayStatus (rqid : String)
  /-- `go handleReplay(name)` -/
  | goHandleReplay (name : String)
  /-- `go watchReplayStatus(rqid)` -/
  | goWatchReplayStatus (rqid : String)
  /-- `consoleReader.ReadLine()` -/
  | readLine
  /-- `fmt.Printf(format, args...)` -/
  | printf (format : String) (args : List String)
  /-- `golog.Debugf(format, args...)` -/
  | debugf (format : String) (args : List String)
  /-- `golog.Infof(format, args...)` and `golog.Info` -/
  | infof (format : String) (args : List String)
  /-- `golog.Warnf(format, args...)` and `golog.Warn` -/
  | warnf (format : String) (args : List String)
  /-- `golog.Errorf(format, args...)` -/
  | errorf (format : String) (args : List String)
  deriving DecidableEq, Repr

/-- The answer of one `os.Stat(replayFilename)` call in `handleReplay`: an
error, or a `FileInfo` of which the code reads `Size()` only. -/
inductive StatResult where
  | fail (err : GoError)
  | ok (size : Int)
  deriving DecidableEq, Repr

/-- The pair `(rqid, err)` returned by `sc2api.UploadReplay`. -/
structure UploadResult where
  rqid : String
  err : Option GoError
  deriving DecidableEq, Repr

/-- The pair `(rid, err)` returned by `sc2api.GetReplayStatus`. -/
structure StatusResponse where
  rid : String
  err : Option GoError
  deriving DecidableEq, Repr

/-- A run of one of the functions: the effects performed so far and whether
the function has returned (`false`: still inside its loop, the script being
used up). -/
structure Run where
  trace : List Effect
  returned : Bool
  deriving DecidableEq, Repr

/-- The run that first performs `pre` and then goes on as `r`. -/
def Run.after (pre : List Effect) (r : Run) : Run :=
  { trace := pre ++ r.trace, returned := r.returned }

/-! ## `handleReplay`: the wait loop (root.go:209-223) -/

/-- One pass through the body of the `for` loop of `handleReplay` after the
sleep (root.go:215-222), given the current `lastSize` and the answer of
`os.Stat`: `none` is the `break`, `some l` goes round again with
`lastSize = l`. -/
def waitIter (lastSize : Int) (r : StatResult) : Option Int :=
  match r with
  | .ok size =>
    if size > validReplaySize then
      if size > lastSize then some size else none
    else some lastSize
  | .fail _ => some lastSize

/-- Where the wait loop stands after a list of samples: `exitAt = some i`
when the `break` was taken at sample `i` (counted from 0), `none` when all
samples were used without a `break`; `lastSize` is the variable of that
name at that moment. -/
structure WaitOutcome where
  exitAt : Option Nat
  lastSize : Int
  deriving DecidableEq, Repr

/-- The wait loop started with `lastSize` at sample number `idx`. -/
def waitLoopFrom (lastSize : Int) (idx : Nat) : List StatResult → WaitOutcome
  | [] => { exitAt := none, lastSize := lastSize }
  | r :: rs =>
    match waitIter lastSize r with
    | none => { exitAt := some idx, lastSize := lastSize }
    | some l => waitLoopFrom l (idx + 1) rs

/-- The wait loop of `handleReplay`: `var lastSize int64` starts at 0. -/
def waitLoop (samples : List StatResult) : WaitOutcome :=
  waitLoopFrom 0 0 samples

/-- The effects of `n` completed iterations of the wait loop: a sleep of
250 ms followed by the stat call, `n` times. -/
def waitTrace (replayFilename : String) : Nat → List Effect
  | 0 => []
  | n + 1 => Effect.sleep 250 :: Effect.stat replayFilename :: waitTrace replayFilename n

/-- What `handleReplay` does once the loop is left (root.go:225-235).
`splitFilepath` is `utils.SplitFilepath`, returning directory, map name and
extension. -/
def afterWait (splitFilepath : String → String × String × String)
    (replayFilename : String) (up : UploadResult) : List Effect :=
  let rqid := up.rqid
  let mapName := (splitFilepath replayFilename).2.1
  Effect.uploadReplay replayFilename ::
    (match up.err with
     | some err =>
       [Effect.errorf "failed to upload replay: %v: %v" [mapName, err]]
     | none =>
       [Effect.infof "sc2replaystats accepted : [%v] %s" [rqid, mapName],
        Effect.goWatchReplayStatus rqid])

/-- The function `handleReplay` (root.go:205-236) run on the scripted stat
answers `samples` and the scripted answer `up` of `UploadReplay`. -/
def handleReplay (splitFilepath : String → String × String × String)
    (replayFilename : String) (samples : List StatResult) (up : UploadResult) : Run :=
  let start := Effect.debugf "uploading replay: %v" [replayFilename]
  match (waitLoop samples).exitAt with
  | none =>
    { trace := start :: waitTrace replayFilename samples.length, returned := false }
  | some i =>
    { trace := start :: (waitTrace replayFilename (i + 1)
                ++ afterWait splitFilepath replayFilename up),
      returned := true }

/-! ## `watchReplayStatus` (root.go:255-273) -/

/-- The function `watchReplayStatus` run on the scripted answers of
`GetReplayStatus`. -/
def watchReplayStatus (rqid : String) : List StatusResponse → Run
  | [] => { trace := [], returned := false }
  | r :: rs =>
    let rid := r.rid
    match r.err with
    | some err =>
      { trace := [Effect.sleep 1000, Effect.getReplayStatus rqid,
                  Effect.errorf "error checking reply status: %v: %v" [rqid, err]],
        returned := true }
    | none =>
      if rid ≠ "" then
        { trace := [Effect.sleep 1000, Effect.getReplayStatus rqid,
                    Effect.infof "sc2replaystats processed: [%v] %s" [rqid, rid]],
          returned := true }
      else
        (watchReplayStatus rqid rs).after
          [Effect.sleep 1000, Effect.getReplayStatus rqid,
           Effect.debugf "sc2replaystats process..: [%v] %s" [rqid, rid]]

/-! ## Reading traces -/

/-- Is the effect a call of `UploadReplay`? -/
def Effect.isUpload : Effect → Bool
  | .uploadReplay _ => true
  | _ => false

/-- Is the effect a call of `GetReplayStatus`? -/
def Effect.isQuery : Effect → Bool
  | .getReplayStatus _ => true
  | _ => false

/-- Is the effect a sleep? -/
def Effect.isSleep : Effect → Bool
  | .sleep _ => true
  | _ => false

/-- Is the effect the start of a status poller? -/
def Effect.isSpawnPoller : Effect → Bool
  | .goWatchReplayStatus _ => true
  | _ => false

/-- Is the effect the start of a stability detector? -/
def Effect.isDispatch : Effect → Bool
  | .goHandleReplay _ => true
  | _ => false

/-- Is the effect a failure report (`golog.Errorf`)? -/
def Effect.isFailure : Effect → Bool
  | .errorf _ _ => true
  | _ => false

/-- Is the effect a milestone report (`golog.Infof`)? -/
def Effect.isSuccess : Effect → Bool
  | .infof _ _ => true
  | _ => false

/-! ## The watcher event loop of `rootCmd.RunE` (root.go:77-99) -/

/-- An `fsnotify.Event`: the file name and the `Op` bit mask (a `uint32`). -/
structure Event where
  name : String
  op : Nat
  deriving DecidableEq, Repr

/-- What one round of the `select` of the event loop receives: a value from
`w.Events` or from `w.Errors`, or the news that the channel is closed
(`ok == false`). -/
inductive Received where
  | event (e : Event)
  | eventsClosed
  | error (err : GoError)
  | errorsClosed
  deriving DecidableEq, Repr

/-- Go `strings.HasSuffix(s, suffix)`:
`len(s) >= len(suffix) && s[len(s)-len(suffix):] == suffix`. -/
def hasSuffix (s suffix : String) : Bool :=
  decide (s.data.length ≥ suffix.data.length) &&
    decide (s.data.drop (s.data.length - suffix.data.length) = suffix.data)

/-- The test of root.go:85, `event.Op&fsnotify.Create == fsnotify.Create`,
with the mask `fsnotify.Create` of the fsnotify library as `create`. -/
def isCreate (create : Nat) (e : Event) : Bool :=
  decide (e.op &&& create = create)

/-- The two nested tests of root.go:85-87 that an event has to pass. -/
def accepted (create : Nat) (e : Event) : Bool :=
  isCreate create e && hasSuffix e.name "eplay"

/-- The body of the `case event, ok := <-w.Events` branch for `ok == true`
(root.go:85-90). -/
def handleEvent (create : Nat) (e : Event) : List Effect :=
  if e.op &&& create = create then
    if hasSuffix e.name "eplay" then [Effect.goHandleReplay e.name] else []
  else []

/-- The event loop of root.go:77-99 on the list of things its `select`
receives, in order. -/
def eventLoop (create : Nat) : List Received → Run
  | [] => { trace := [], returned := false }
  | .event e :: rest => (eventLoop create rest).after (handleEvent create e)
  | .eventsClosed :: _ => { trace := [], returned := true }
  | .error err :: rest =>
    (eventLoop create rest).after [Effect.warnf "fswatcher error: %v" [err]]
  | .errorsClosed :: _ => { trace := [], returned := true }

/-- The mask `fsnotify.Create` of the fsnotify library: `1 << 0`. -/
def fsnotifyCreate : Nat := 1

/-! ## `findReplaysRoot` (root.go:124-163) -/

/-- How a function of the start-up path ends. -/
inductive Outcome (α : Type) where
  /-- The function returned the value and a nil error -/
  | returned (v : α)
  /-- The function returned a non-nil error -/
  | failed (err : GoError)
  /-- The process was ended by `golog.Fatal` or `golog.Fatalf` -/
  | fatal (msg : String)
  /-- The function is still inside a loop, its script being used up -/
  | pending
  /-- A run-time panic: an index out of range -/
  | panicked
  deriving DecidableEq, Repr

/-- The variable `termWidth` (root.go:120). -/
def termWidth : Nat := 80

/-- The constant `minReadBufferSize` of Go's `bufio` package. -/
def minReadBufferSize : Nat := 16

/-- The buffer size of the reader that `bufio.NewReaderSize(rd, size)`
returns: a size below `minReadBufferSize` is raised to it. -/
def newReaderSize (size : Nat) : Nat :=
  if size < minReadBufferSize then minReadBufferSize else size

/-- Go `(*bufio.Reader).ReadSlice('\n')` for a reader whose buffer holds
`size` bytes, on the bytes of the input that are not read yet (a byte is its
value, 10 is the newline).  The answer is the slice returned, whether the
error is `ErrBufferFull`, and the bytes left unread: the bytes up to and with
the first newline when it is among the first `size` bytes, and the first
`size` bytes with `ErrBufferFull` when there is no newline among them.
`none`: the call waits for more input (the terminal stays open, so there is
no end of file). -/
def readSlice : Nat → List Nat → Option (List Nat × Bool × List Nat)
  | 0, unread => some ([], true, unread)
  | _ + 1, [] => none
  | n + 1, b :: bs =>
    if b = 10 then some ([b], false, bs)
    else
      match readSlice n bs with
      | none => none
      | some (slice, full, rest) => some (b :: slice, full, rest)

/-- Go `(*bufio.Reader).ReadLine()`: the line returned, `isPrefix`, and the
bytes left unread.  On `ErrBufferFull` the buffer is returned with
`isPrefix` set, a carriage return at its end being put back; otherwise the
newline and a carriage return before it are dropped. -/
def readLine (size : Nat) (unread : List Nat) : Option (List Nat × Bool × List Nat) :=
  match readSlice size unread with
  | none => none
  | some (slice, true, rest) =>
    if slice.getLast? = some 13 then some (slice.dropLast, true, 13 :: rest)
    else some (slice, true, rest)
  | some (slice, false, rest) =>
    if slice.getLast? = some 10 then
      if slice.dropLast.getLast? = some 13 then some (slice.dropLast.dropLast, false, rest)
      else some (slice.dropLast, false, rest)
    else some (slice, false, rest)

/-- The prompt loop of root.go:149-159 for a console reader with a buffer
of `size` bytes, on the bytes typed at the terminal.  Each round prints the
prompt and calls `ReadLine`, of whose answer only the line is used
(`input, _, _ :=`).  `atoi` is `strconv.Atoi` on the bytes of the line,
`none` standing for a non-nil error.  `fuel` bounds the number of rounds;
every round reads at least one byte, so more fuel than there are bytes is
never used up. -/
def promptLoopFuel (atoi : List Nat → Option Int) (roots : List String) (size : Nat) :
    Nat → List Nat → List Effect × Outcome String
  | 0, _ => ([], .pending)
  | fuel + 1, stdin =>
    let pre := [Effect.printf "Your Choice [1-%d]: " [toString roots.length],
                Effect.readLine]
    match readLine size stdin with
    | none => ([], .pending)
    | some (input, _, rest) =>
      match atoi input with
      | some choice =>
        if choice > 0 ∧ choice - 1 < (roots.length : Int) then
          match roots[(choice - 1).toNat]? with
          | some root => (pre, .returned root)
          | none => (pre, .panicked)
        else
          let r := promptLoopFuel atoi roots size fuel rest
          (pre ++ r.1, r.2)
      | none =>
        let r := promptLoopFuel atoi roots size fuel rest
        (pre ++ r.1, r.2)

/-- The prompt loop of root.go:149-159 on the bytes typed at the terminal,
with the reader of root.go:147, `bufio.NewReaderSize(os.Stdin, 1)`. -/
def promptLoop (atoi : List Nat → Option Int) (roots : List String) (stdin : List Nat) :
    List Effect × Outcome String :=
  promptLoopFuel atoi roots (newReaderSize 1) (stdin.length + 1) stdin

/-- The listing of root.go:141-143: one line per root, numbered from 1. -/
def listRoots (roots : List String) : List Effect :=
  roots.enum.map fun ip => Effect.printf "\n  %d: %s" [toString (1 + ip.1), ip.2]

/-- The output of root.go:138-145 that comes before the prompt: the banner
between two lines of `=` signs, with the listing of the roots. -/
def rootsBanner (wrapped : String) (roots : List String) : List Effect :=
  let line := String.mk (List.replicate (termWidth / 2) '=')
  [Effect.printf "\n%s\n%s\n" [line, wrapped]] ++ listRoots roots
    ++ [Effect.printf "\n%s\n" [line]]

/-- The function `findReplaysRoot` given the answer `(roots, err)` of
`sc2utils.FindReplaysRoot` and the bytes typed at the terminal.  `wrapped`
is the text that `wordwrap.WrapString` returns for the banner. -/
def findReplaysRoot (atoi : List Nat → Option Int) (wrapped : String)
    (roots : List String) (err : Option GoError) (stdin : List Nat) :
    List Effect × Outcome String :=
  if err.isSome ∨ roots.length = 0 then
    ([], .failed ("unable to automatically determine the path to your replays directory: "
                   ++ err.getD "<nil>"))
  else
    match roots[0]? with
    | none => ([], .panicked)
    | some root =>
      if roots.length > 1 then
        let r := promptLoop atoi roots stdin
        (rootsBanner wrapped roots ++ r.1, r.2)
      else ([], .returned root)

/-! ## `getWatchPaths` (root.go:165-203), `newWatcher` (root.go:238-253) and
the start of `rootCmd.RunE` (root.go:53-75) -/

/-- The surroundings of `getWatchPaths`. -/
structure WatchEnv where
  /-- The value of `viper.GetString("replaysRoot")` -/
  replaysRoot : String
  /-- Whether `os.Stat(p)` succeeds and reports a directory -/
  isDir : String → Bool
  /-- The error returned by `saveConfig()` -/
  saveConfig : Option GoError
  /-- The function `sc2utils.EnumerateAccounts` -/
  enumerateAccounts : String → List String × Option GoError
  /-- The function `filepath.Join` -/
  join : List String → String

/-- The loop of root.go:195-200 that collects the existing directories. -/
def collectPaths (env : WatchEnv) (replaysRoot : String) : List String → List String
  | [] => []
  | a :: accs =>
    let p := env.join [replaysRoot, a, "Replays", "Multiplayer"]
    if env.isDir p then p :: collectPaths env replaysRoot accs
    else collectPaths env replaysRoot accs

/-- The part of `getWatchPaths` from the account scan on (root.go:186-202). -/
def scanAccounts (env : WatchEnv) (replaysRoot : String) :
    List Effect × Outcome (List String) :=
  let accs := (env.enumerateAccounts replaysRoot).1
  let log := [Effect.debugf "account scan returned: %v toons" [toString accs.length]]
  match (env.enumerateAccounts replaysRoot).2 with
  | some err => (log, .failed ("getWatchPaths: " ++ err))
  | none => (log, .returned (collectPaths env replaysRoot accs))

/-- The function `getWatchPaths`; `found` is the run of `findReplaysRoot`,
looked at only when the configured root is not a directory. -/
def getWatchPaths (env : WatchEnv) (found : List Effect × Outcome String) :
    List Effect × Outcome (List String) :=
  if ¬ env.isDir env.replaysRoot then
    let pre := [Effect.warnf "Replay Root not configured correctly, searching for replays directory..." [],
                Effect.infof "Determining replays directory... (this could take a few minutes)..." []]
                ++ found.1
    match found.2 with
    | .failed err => (pre, .fatal err)
    | .fatal msg => (pre, .fatal msg)
    | .pending => (pre, .pending)
    | .panicked => (pre, .panicked)
    | .returned root =>
      match env.saveConfig with
      | some err => (pre, .failed err)
      | none =>
        let r := scanAccounts env root
        (pre ++ Effect.infof "Using replays directory: %v" [root] :: r.1, r.2)
  else scanAccounts env env.replaysRoot

/-- The loop of root.go:244-250: every path is added to the watcher, and a
path that cannot be added ends the process. -/
def addPaths (addErr : String → Option GoError) : List String → List Effect × Outcome Unit
  | [] => ([], .returned ())
  | p :: ps =>
    let log := Effect.debugf "Watching replays directory: %v" [p]
    match addErr p with
    | some err => ([log], .fatal ("failed to watch replay directory: " ++ p ++ ": " ++ err))
    | none =>
      let r := addPaths addErr ps
      (log :: r.1, r.2)

/-- The function `newWatcher`: `newErr` is the error of `fsnotify.NewWatcher()`
and `addErr p` the error of `watcher.Add(p)`.  A watcher is identified with
the list of paths it watches. -/
def newWatcher (newErr : Option GoError) (addErr : String → Option GoError)
    (paths : List String) : List Effect × Outcome (List String) :=
  match newErr with
  | some err => ([], .failed ("failed to setup fswatcher: " ++ err))
  | none =>
    match addPaths addErr paths with
    | (tr, .returned _) => (tr, .returned paths)
    | (tr, .failed err) => (tr, .failed err)
    | (tr, .fatal msg) => (tr, .fatal msg)
    | (tr, .pending) => (tr, .pending)
    | (tr, .panicked) => (tr, .panicked)

/-- How the text-mode start of `rootCmd.RunE` ends. -/
inductive Startup where
  /-- The function returned the error before the event loop was started -/
  | failed (err : GoError)
  /-- The process was ended by `golog.Fatal` -/
  | fatal (msg : String)
  /-- The start-up did not come to an end (script used up, or a panic) -/
  | stuck
  /-- The event loop was started on a watcher of these paths -/
  | watching (paths : List String)
  deriving DecidableEq, Repr

/-- The text-mode start of `rootCmd.RunE` (root.go:53-77): the key checks,
`getWatchPaths`, `newWatcher`, and then the event loop is started.
`validAPIKey` is `sc2replaystats.ValidAPIKey`. -/
def runEStart (key : String) (validAPIKey : String → Bool) (env : WatchEnv)
    (found : List Effect × Outcome String)
    (newErr : Option GoError) (addErr : String → Option GoError) : Startup :=
  if key = "" then
    .failed "no API key in configuration, please use the login command"
  else if ¬ validAPIKey key then
    .failed "invalid API key in configuration, please replace it or use the login command"
  else
    match (getWatchPaths env found).2 with
    | .failed err => .failed err
    | .fatal msg => .fatal msg
    | .pending => .stuck
    | .panicked => .stuck
    | .returned paths =>
      match (newWatcher newErr addErr paths).2 with
      | .failed err => .failed err
      | .fatal msg => .fatal msg
      | .pending => .stuck
      | .panicked => .stuck
      | .returned watched => .watching watched

/-! ## Lemmas on the wait loop -/

/-- The exit condition as the specification words it: sample `i` succeeds
with a size above the threshold, and an earlier successful sample `j` had a
size above the threshold that is at least the size of sample `i`. -/
def ExitCond (samples : List StatResult) (i : Nat) : Prop :=
  ∃ s, samples[i]? = some (.ok s) ∧ s > 26624 ∧
    ∃ j, j < i ∧ ∃ t, samples[j]? = some (.ok t) ∧ t > 26624 ∧ t ≥ s

/-- The exit condition of a loop that starts with a given `lastSize`. -/
def ExitCondFrom (lastSize : Int) (samples : List StatResult) (i : Nat) : Prop :=
  ∃ s, samples[i]? = some (.ok s) ∧ s > 26624 ∧
    (s ≤ lastSize ∨ ∃ j, j < i ∧ ∃ t, samples[j]? = some (.ok t) ∧ t > 26624 ∧ t ≥ s)

/-- The largest size among the successful samples above the threshold, and
0 when there is none. -/
def maxAbove : List StatResult → Int
  | [] => 0
  | .ok size :: rs => if size > validReplaySize then max size (maxAbove rs) else maxAbove rs
  | .fail _ :: rs => maxAbove rs

/-- The size list is stable at index `i`: `i` is at least 1, and sample `i`
has the same size as sample `i - 1`, a size above 26624. -/
def StableAt (sizes : List Int) (i : Nat) : Prop :=
  ∃ j s, i = j + 1 ∧ sizes[j]? = some s ∧ sizes[j + 1]? = some s ∧ s > 26624

/-- The step of `lastAbove`: a successful sample above the threshold
replaces the remembered size, any other sample keeps it. -/
def lastAboveStep (l : Int) (r : StatResult) : Int :=
  match r with
  | .ok size => if size > validReplaySize then size else l
  | .fail _ => l

/-- The size of the most recent successful sample above the threshold, and
0 when there is none. -/
def lastAbove (samples : List StatResult) : Int :=
  samples.foldl lastAboveStep 0

/-- The size of the most recent successful stat among the first `i`
samples: the immediately previous observed size at sample `i`. -/
def prevObserved (samples : List StatResult) (i : Nat) : Option Int :=
  (samples.take i).foldl
    (fun o r =>
      match r with
      | .ok size => some size
      | .fail _ => o)
    none

/-- The reading of the wait loop that compares each sample with the
immediately previous observed size: at a sample `i` above the threshold that
the loop reaches, a size greater than the previous observed size keeps the
loop going, and the loop leaves at `i` only when the size is not greater
than the previous observed size. -/
def GrowthByPrevious (samples : List StatResult) : Prop :=
  ∀ i s p, samples[i]? = some (.ok s) → s > 26624 →
    (waitLoop (samples.take i)).exitAt = none →
    prevObserved samples i = some p →
    (s > p → (waitLoop (samples.take (i + 1))).exitAt = none) ∧
    ((waitLoop (samples.take (i + 1))).exitAt = some i → s ≤ p)

/-- The effects of `n` rounds of `watchReplayStatus` that each got the
answer `("", nil)`: sleep one second, query, log the progress line. -/
def pollTrace (rqid : String) : Nat → List Effect
  | 0 => []
  | n + 1 =>
    Effect.sleep 1000 :: Effect.getReplayStatus rqid ::
      Effect.debugf "sc2replaystats process..: [%v] %s" [rqid, ""] :: pollTrace rqid n

/-- The runs of the status pollers that a trace starts, in order: every
`go watchReplayStatus(rqid)` runs `watchReplayStatus` on the answers scripted
for that `rqid`. -/
def spawnedPollers (statuses : String → List StatusResponse) : List Effect → List Run
  | [] => []
  | .goWatchReplayStatus rqid :: rest =>
    watchReplayStatus rqid (statuses rqid) :: spawnedPollers statuses rest
  | _ :: rest => spawnedPollers statuses rest

/-- The whole run for one file: `handleReplay` on the scripted samples and
upload answer, and the status pollers it starts on the scripted status
answers. -/
def replayRun (splitFilepath : String → String × String × String)
    (replayFilename : String) (samples : List StatResult) (up : UploadResult)
    (statuses : String → List StatusResponse) : Run × List Run :=
  let detector := handleReplay splitFilepath replayFilename samples up
  (detector, spawnedPollers statuses detector.trace)

/-- The events that the loop receives before a channel is reported closed. -/
def eventsBeforeClose : List Received → List Event
  | [] => []
  | .event e :: rest => e :: eventsBeforeClose rest
  | .eventsClosed :: _ => []
  | .error _ :: rest => eventsBeforeClose rest
  | .errorsClosed :: _ => []

/-- The number of `GetReplayStatus` calls of a run. -/
def Run.queries (r : Run) : Nat :=
  r.trace.countP Effect.isQuery

/-- The answers that `GetReplayStatus` gave to `watchReplayStatus rqid` when
the script is `rs`: one scripted answer per query made. -/
def answersGiven (rqid : String) (rs : List StatusResponse) : List StatusResponse :=
  rs.take (watchReplayStatus rqid rs).queries

/-- The effects of `k` rounds of the prompt loop for `n` roots: the prompt
and the read of a line, `k` times. -/
def promptTrace (n : Nat) : Nat → List Effect
  | 0 => []
  | k + 1 =>
    Effect.printf "Your Choice [1-%d]: " [toString n] :: Effect.readLine :: promptTrace n k

/-- The line is a valid choice among `n` roots: `strconv.Atoi` parses it to
an integer between 1 and `n`. -/
def ValidChoice (atoi : List Nat → Option Int) (n : Nat) (line : List Nat) : Prop :=
  ∃ c : Int, atoi line = some c ∧ 1 ≤ c ∧ c ≤ (n : Int)

/-- A line as the operator types it: the text, and whether the line ends in
carriage return and newline or in a newline alone. -/
structure InputLine where
  text : List Nat
  crlf : Bool
  deriving DecidableEq, Repr

/-- The bytes that the line puts on the terminal input. -/
def InputLine.bytes (l : InputLine) : List Nat :=
  l.text ++ (if l.crlf then [13, 10] else [10])

/-- The text holds no newline, and a carriage return at its end belongs to
the line ending. -/
def InputLine.WellFormed (l : InputLine) : Prop :=
  10 ∉ l.text ∧ (l.crlf = false → l.text.getLast? ≠ some 13)

/-- The line with its ending fits the buffer of the console reader: at most
15 bytes of text before a newline, at most 14 before carriage return and
newline. -/
def InputLine.Fits (l : InputLine) : Prop :=
  l.bytes.length ≤ newReaderSize 1

instance (l : InputLine) : Decidable l.WellFormed :=
  inferInstanceAs (Decidable (10 ∉ l.text ∧ (l.crlf = false → l.text.getLast? ≠ some 13)))

instance (l : InputLine) : Decidable l.Fits :=
  inferInstanceAs (Decidable (l.bytes.length ≤ newReaderSize 1))

/-- The terminal input made of the lines, in order. -/
def stdinOf : List InputLine → List Nat
  | [] => []
  | l :: ls => l.bytes ++ stdinOf ls

/-- The bytes of a text of ASCII characters. -/
def asciiBytes (s : String) : List Nat :=
  s.data.map Char.toNat

/-- The value of a list of decimal digits that follows the digits read so
far, `none` when a byte is no digit. -/
def parseDigits (acc : Nat) : List Nat → Option Nat
  | [] => some acc
  | b :: bs => if 48 ≤ b ∧ b ≤ 57 then parseDigits (acc * 10 + (b - 48)) bs else none

/-- Go `strconv.Atoi` for a 64-bit `int`, on the bytes of the string: an
optional sign and then one or more decimal digits, with a value from
`-2^63` to `2^63 - 1`; anything else is an error (`none`). -/
def goAtoi (s : List Nat) : Option Int :=
  match s with
  | [] => none
  | b :: bs =>
    let digits := if b = 45 ∨ b = 43 then bs else b :: bs
    if digits.isEmpty then none
    else
      match parseDigits 0 digits with
      | none => none
      | some v =>
        if b = 45 then (if v > 2 ^ 63 then none else some (-(v : Int)))
        else (if v ≥ 2 ^ 63 then none else some (v : Int))

/-- The reading of `findReplaysRoot` by input lines: whenever the lines
typed are some lines that are no valid choice, then a line that
`strconv.Atoi` parses to `c` with `1 <= c <= N`, then any lines, the function
returns `roots[c-1]`. -/
def ChoiceByFirstValidLine (atoi : List Nat → Option Int) (wrapped : String)
    (roots : List String) (lines : List InputLine) : Prop :=
  ∀ (bad : List InputLine) (good : InputLine) (rest : List InputLine) (c : Int),
    lines = bad ++ good :: rest →
    (∀ l ∈ bad, ¬ ValidChoice atoi roots.length l.text) →
    atoi good.text = some c → 1 ≤ c → c ≤ (roots.length : Int) →
    ∃ root, roots[(c - 1).toNat]? = some root ∧
      (findReplaysRoot atoi wrapped roots none (stdinOf lines)).2 = .returned root

/-- An installation whose configured root `/sc2` is a directory and holds
no other directory; `accs` is what the account scan returns. -/
def bareRootEnv (accs : List String) : WatchEnv :=
  { replaysRoot := "/sc2"
    isDir := fun p => decide (p = "/sc2")
    saveConfig := none
    enumerateAccounts := fun _ => (accs, none)
    join := fun parts => "/".intercalate parts }

theorem validReplaySize_eq : validReplaySize = 26624 := by decide

theorem waitIter_fail (lastSize : Int) (e : GoError) :
    waitIter lastSize (.fail e) = some lastSize := rfl

theorem waitIter_ok (lastSize size : Int) :
    waitIter lastSize (.ok size) =
      if size > 26624 then (if size > lastSize then some size else none)
      else some lastSize := by
  simp [waitIter, validReplaySize_eq]

theorem waitLoopFrom_nil (l : Int) (k : Nat) :
    waitLoopFrom l k [] = { exitAt := none, lastSize := l } := rfl

theorem waitLoopFrom_cons_none {l : Int} {r : StatResult} (k : Nat) (rs : List StatResult)
    (h : waitIter l r = none) :
    waitLoopFrom l k (r :: rs) = { exitAt := some k, lastSize := l } := by
  simp [waitLoopFrom, h]

theorem waitLoopFrom_cons_some {l l2 : Int} {r : StatResult} (k : Nat) (rs : List StatResult)
    (h : waitIter l r = some l2) :
    waitLoopFrom l k (r :: rs) = waitLoopFrom l2 (k + 1) rs := by
  simp [waitLoopFrom, h]

/-- An exit index is never before the index the loop started at. -/
theorem waitLoopFrom_exit_ge (samples : List StatResult) :
    ∀ (l : Int) (k i : Nat), (waitLoopFrom l k samples).exitAt = some i → k ≤ i := by
  induction samples with
  | nil => intro l k i h; simp [waitLoopFrom] at h
  | cons r rs ih =>
    intro l k i h
    cases hw : waitIter l r with
    | none =>
      rw [waitLoopFrom_cons_none k rs hw] at h
      simp at h; omega
    | some l2 =>
      rw [waitLoopFrom_cons_some k rs hw] at h
      have := ih l2 (k + 1) i h
      omega

/-- The start index only shifts the exit index. -/
theorem waitLoopFrom_shift (samples : List StatResult) :
    ∀ (l : Int) (k : Nat),
      waitLoopFrom l k samples =
        { exitAt := (waitLoopFrom l 0 samples).exitAt.map (· + k),
          lastSize := (waitLoopFrom l 0 samples).lastSize } := by
  induction samples with
  | nil => intro l k; simp [waitLoopFrom]
  | cons r rs ih =>
    intro l k
    cases hw : waitIter l r with
    | none =>
      rw [waitLoopFrom_cons_none k rs hw, waitLoopFrom_cons_none 0 rs hw]
      simp
    | some l2 =>
      rw [waitLoopFrom_cons_some k rs hw, waitLoopFrom_cons_some 0 rs hw]
      rw [ih l2 (k + 1), ih l2 (0 + 1)]
      cases (waitLoopFrom l2 0 rs).exitAt with
      | none => simp
      | some i => simp; omega

/-- A sample that is a failed stat or a size of at most 26624 leaves
`lastSize` as it is and does not end the loop. -/
theorem waitIter_small {r : StatResult} (l : Int)
    (h : (∃ e, r = .fail e) ∨ (∃ s, r = .ok s ∧ s ≤ 26624)) :
    waitIter l r = some l := by
  rcases h with ⟨e, rfl⟩ | ⟨s, rfl, hs⟩
  · rfl
  · rw [waitIter_ok]
    have : ¬ s > 26624 := by omega
    simp [this]

theorem waitLoopFrom_small (samples : List StatResult) :
    ∀ (l : Int) (k : Nat),
      (∀ r ∈ samples, (∃ e, r = .fail e) ∨ (∃ s, r = .ok s ∧ s ≤ 26624)) →
      waitLoopFrom l k samples = { exitAt := none, lastSize := l } := by
  induction samples with
  | nil => intro l k _; rfl
  | cons r rs ih =>
    intro l k h
    rw [waitLoopFrom_cons_some k rs (waitIter_small l (h r (List.mem_cons_self _ _)))]
    exact ih l (k + 1) (fun x hx => h x (List.mem_cons_of_mem _ hx))

theorem waitTrace_props (path : String) (n : Nat) :
    ∀ e ∈ waitTrace path n,
      e.isUpload = false ∧ e.isFailure = false ∧ e.isSuccess = false ∧
        e.isSpawnPoller = false := by
  induction n with
  | zero => intro e he; simp [waitTrace] at he
  | succ n ih =>
    intro e he
    simp only [waitTrace, List.mem_cons] at he
    rcases he with rfl | rfl | he
    · simp [Effect.isUpload, Effect.isFailure, Effect.isSuccess, Effect.isSpawnPoller]
    · simp [Effect.isUpload, Effect.isFailure, Effect.isSuccess, Effect.isSpawnPoller]
    · exact ih e he

/-- C6: when every sample is a failed stat or a successful stat with a size
of at most 26624 bytes (26624 included), the wait loop of `handleReplay` has
not exited after the whole sequence: `lastSize` is still 0, `handleReplay`
has not returned, its trace holds the start-up debug line and one sleep and
one stat per sample and nothing else, so no `UploadReplay` call, no failure
report, no milestone report and no status poller.  A failed stat never ends
the loop and never changes `lastSize`, whatever `lastSize` is. -/
theorem C6_below_threshold_keeps_waiting
    (split : String → String × String × String) (path : String) (up : UploadResult)
    (samples : List StatResult)
    (h : ∀ r ∈ samples, (∃ e, r = StatResult.fail e) ∨ (∃ s, r = StatResult.ok s ∧ s ≤ 26624)) :
    waitLoop samples = { exitAt := none, lastSize := 0 } ∧
    (handleReplay split path samples up).returned = false ∧
    (handleReplay split path samples up).trace =
      Effect.debugf "uploading replay: %v" [path] :: waitTrace path samples.length ∧
    (∀ e ∈ (handleReplay split path samples up).trace,
      e.isUpload = false ∧ e.isFailure = false ∧ e.isSuccess = false ∧
        e.isSpawnPoller = false) ∧
    (∀ (l : Int) (e : GoError), waitIter l (StatResult.fail e) = some l) := by
  have hw : waitLoop samples = { exitAt := none, lastSize := 0 } :=
    waitLoopFrom_small samples 0 0 h
  have ht : handleReplay split path samples up =
      { trace := Effect.debugf "uploading replay: %v" [path] :: waitTrace path samples.length,
        returned := false } := by
    simp [handleReplay, hw]
  refine ⟨hw, ?_, ?_, ?_, fun l e => rfl⟩
  · rw [ht]
  · rw [ht]
  · rw [ht]
    intro e he
    simp only [List.mem_cons] at he
    rcases he with rfl | he
    · simp [Effect.isUpload, Effect.isFailure, Effect.isSuccess, Effect.isSpawnPoller]
    · exact waitTrace_props path _ e he

/-- C6 at a concrete input: a failed stat, an empty file, and a file of
exactly 26624 bytes seen twice. -/
theorem C6_below_threshold_keeps_waiting_witness :
    waitLoop [.fail "no such file", .ok 0, .ok 26624, .ok 26624]
      = { exitAt := none, lastSize := 0 } ∧
    (handleReplay (fun p => ("", p, "")) "a.SC2Replay"
      [.fail "no such file", .ok 0, .ok 26624, .ok 26624] ⟨"R1", none⟩).returned = false :=
  have h := C6_below_threshold_keeps_waiting (fun p => ("", p, "")) "a.SC2Replay" ⟨"R1", none⟩
    [.fail "no such file", .ok 0, .ok 26624, .ok 26624]
    (by
      intro r hr
      simp only [List.mem_cons, List.mem_singleton, List.not_mem_nil, or_false] at hr
      rcases hr with rfl | rfl | rfl | rfl
      · exact Or.inl ⟨_, rfl⟩
      · exact Or.inr ⟨0, rfl, by decide⟩
      · exact Or.inr ⟨26624, rfl, by decide⟩
      · exact Or.inr ⟨26624, rfl, by decide⟩)
  ⟨h.1, h.2.1⟩

/-! ### The exit index of the wait loop -/

theorem exitCondFrom_nil (l : Int) (i : Nat) : ¬ ExitCondFrom l [] i := by
  rintro ⟨s, hs, _⟩
  simp at hs

/-- At the first sample the exit condition is the `break` of `waitIter`. -/
theorem exitCondFrom_zero (l : Int) (r : StatResult) (rs : List StatResult) :
    ExitCondFrom l (r :: rs) 0 ↔ waitIter l r = none := by
  constructor
  · rintro ⟨s, hs, hgt, hle | ⟨j, hj, _⟩⟩
    · simp only [List.getElem?_cons_zero, Option.some.injEq] at hs
      subst hs
      rw [waitIter_ok]
      have : ¬ s > l := by omega
      simp [hgt, this]
    · omega
  · intro h
    cases r with
    | fail e => simp [waitIter] at h
    | ok s =>
      rw [waitIter_ok] at h
      by_cases hgt : s > 26624
      · by_cases hl : s > l
        · simp [hgt, hl] at h
        · exact ⟨s, by simp, hgt, Or.inl (by omega)⟩
      · simp [hgt] at h

/-- After a sample that does not end the loop, the exit condition of the
rest is the exit condition with the new `lastSize`. -/
theorem exitCondFrom_succ {l l2 : Int} {r : StatResult} (rs : List StatResult) (m : Nat)
    (h : waitIter l r = some l2) :
    ExitCondFrom l (r :: rs) (m + 1) ↔ ExitCondFrom l2 rs m := by
  cases r with
  | fail e =>
    simp only [waitIter, Option.some.injEq] at h
    subst h
    constructor
    · rintro ⟨u, hu, hgt, hle | ⟨j, hj, t, ht, htgt, hge⟩⟩
      · exact ⟨u, by simpa using hu, hgt, Or.inl hle⟩
      · cases j with
        | zero => simp at ht
        | succ j =>
          exact ⟨u, by simpa using hu, hgt,
            Or.inr ⟨j, by omega, t, by simpa using ht, htgt, hge⟩⟩
    · rintro ⟨u, hu, hgt, hle | ⟨j, hj, t, ht, htgt, hge⟩⟩
      · exact ⟨u, by simpa using hu, hgt, Or.inl hle⟩
      · exact ⟨u, by simpa using hu, hgt,
          Or.inr ⟨j + 1, by omega, t, by simpa using ht, htgt, hge⟩⟩
  | ok s =>
    rw [waitIter_ok] at h
    by_cases hs : s > 26624
    · by_cases hl : s > l
      · simp only [hs, hl, if_true, Option.some.injEq] at h
        subst h
        constructor
        · rintro ⟨u, hu, hgt, hle | ⟨j, hj, t, ht, htgt, hge⟩⟩
          · exact ⟨u, by simpa using hu, hgt, Or.inl (by omega)⟩
          · cases j with
            | zero =>
              simp only [List.getElem?_cons_zero, Option.some.injEq,
                StatResult.ok.injEq] at ht
              subst ht
              exact ⟨u, by simpa using hu, hgt, Or.inl hge⟩
            | succ j =>
              exact ⟨u, by simpa using hu, hgt,
                Or.inr ⟨j, by omega, t, by simpa using ht, htgt, hge⟩⟩
        · rintro ⟨u, hu, hgt, hle | ⟨j, hj, t, ht, htgt, hge⟩⟩
          · exact ⟨u, by simpa using hu, hgt,
              Or.inr ⟨0, by omega, s, by simp, hs, hle⟩⟩
          · exact ⟨u, by simpa using hu, hgt,
              Or.inr ⟨j + 1, by omega, t, by simpa using ht, htgt, hge⟩⟩
      · simp [hs, hl] at h
    · simp only [hs, if_false, Option.some.injEq] at h
      subst h
      constructor
      · rintro ⟨u, hu, hgt, hle | ⟨j, hj, t, ht, htgt, hge⟩⟩
        · exact ⟨u, by simpa using hu, hgt, Or.inl hle⟩
        · cases j with
          | zero =>
            simp only [List.getElem?_cons_zero, Option.some.injEq,
              StatResult.ok.injEq] at ht
            subst ht
            exact absurd htgt hs
          | succ j =>
            exact ⟨u, by simpa using hu, hgt,
              Or.inr ⟨j, by omega, t, by simpa using ht, htgt, hge⟩⟩
      · rintro ⟨u, hu, hgt, hle | ⟨j, hj, t, ht, htgt, hge⟩⟩
        · exact ⟨u, by simpa using hu, hgt, Or.inl hle⟩
        · exact ⟨u, by simpa using hu, hgt,
            Or.inr ⟨j + 1, by omega, t, by simpa using ht, htgt, hge⟩⟩

/-- The loop started with `lastSize = l` leaves at the first sample that
meets the exit condition for `l`. -/
theorem waitLoopFrom_exit_iff (samples : List StatResult) :
    ∀ (l : Int) (i : Nat),
      (waitLoopFrom l 0 samples).exitAt = some i ↔
        (ExitCondFrom l samples i ∧ ∀ m, m < i → ¬ ExitCondFrom l samples m) := by
  induction samples with
  | nil =>
    intro l i
    simp [waitLoopFrom, exitCondFrom_nil]
  | cons r rs ih =>
    intro l i
    cases hw : waitIter l r with
    | none =>
      rw [waitLoopFrom_cons_none 0 rs hw]
      have h0 : ExitCondFrom l (r :: rs) 0 := (exitCondFrom_zero l r rs).2 hw
      constructor
      · intro h
        simp only [Option.some.injEq] at h
        subst h
        exact ⟨h0, fun m hm => by omega⟩
      · rintro ⟨_, hmin⟩
        cases i with
        | zero => rfl
        | succ i => exact absurd h0 (hmin 0 (by omega))
    | some l2 =>
      rw [waitLoopFrom_cons_some 0 rs hw, waitLoopFrom_shift rs l2 (0 + 1)]
      have h0 : ¬ ExitCondFrom l (r :: rs) 0 := by
        intro h
        rw [(exitCondFrom_zero l r rs).1 h] at hw
        cases hw
      cases i with
      | zero =>
        constructor
        · intro h
          cases hx : (waitLoopFrom l2 0 rs).exitAt with
          | none => simp [hx] at h
          | some x => simp [hx] at h
        · rintro ⟨h, _⟩
          exact absurd h h0
      | succ i =>
        have key : (waitLoopFrom l2 0 rs).exitAt.map (· + (0 + 1)) = some (i + 1) ↔
            (waitLoopFrom l2 0 rs).exitAt = some i := by
          cases hx : (waitLoopFrom l2 0 rs).exitAt with
          | none => simp
          | some x => simp
        simp only [key]
        rw [ih l2 i, exitCondFrom_succ rs i hw]
        constructor
        · rintro ⟨h1, h2⟩
          refine ⟨h1, fun m hm => ?_⟩
          cases m with
          | zero => exact h0
          | succ m =>
            rw [exitCondFrom_succ rs m hw]
            exact h2 m (by omega)
        · rintro ⟨h1, h2⟩
          refine ⟨h1, fun m hm => ?_⟩
          rw [← exitCondFrom_succ rs m hw]
          exact h2 (m + 1) (by omega)

/-- With `lastSize = 0` the first disjunct of the exit condition is empty. -/
theorem exitCondFrom_zero_iff (samples : List StatResult) (i : Nat) :
    ExitCondFrom 0 samples i ↔ ExitCond samples i := by
  constructor
  · rintro ⟨s, hs, hgt, hle | h⟩
    · omega
    · exact ⟨s, hs, hgt, h⟩
  · rintro ⟨s, hs, hgt, h⟩
    exact ⟨s, hs, hgt, Or.inr h⟩

theorem waitLoop_exit_iff (samples : List StatResult) (i : Nat) :
    (waitLoop samples).exitAt = some i ↔
      (ExitCond samples i ∧ ∀ m, m < i → ¬ ExitCond samples m) := by
  unfold waitLoop
  rw [waitLoopFrom_exit_iff samples 0 i]
  simp only [exitCondFrom_zero_iff]

/-! ### The recorded size and the effects around the exit -/

theorem maxAbove_nonneg (samples : List StatResult) : 0 ≤ maxAbove samples := by
  induction samples with
  | nil => simp [maxAbove]
  | cons r rs ih =>
    cases r with
    | fail e => simpa [maxAbove] using ih
    | ok s =>
      simp only [maxAbove]
      split
      · exact le_trans ih (le_max_right _ _)
      · exact ih

/-- When the loop leaves at sample `i`, `lastSize` is the largest of the
start value and the sizes above the threshold seen before `i`, and sample
`i` is a successful stat above the threshold that is not greater. -/
theorem waitLoopFrom_lastSize (samples : List StatResult) :
    ∀ (l : Int) (i : Nat), (waitLoopFrom l 0 samples).exitAt = some i →
      (waitLoopFrom l 0 samples).lastSize = max l (maxAbove (samples.take i)) ∧
      ∃ s, samples[i]? = some (.ok s) ∧ s > 26624 ∧
        s ≤ (waitLoopFrom l 0 samples).lastSize := by
  induction samples with
  | nil => intro l i h; simp [waitLoopFrom] at h
  | cons r rs ih =>
    intro l i h
    cases hw : waitIter l r with
    | none =>
      rw [waitLoopFrom_cons_none 0 rs hw] at h ⊢
      simp only [Option.some.injEq] at h
      subst h
      obtain ⟨s, hs, hgt, hle | ⟨j, hj, _⟩⟩ := (exitCondFrom_zero l r rs).2 hw
      · refine ⟨?_, s, hs, hgt, hle⟩
        simp only [List.take_zero, maxAbove]
        have : (0 : Int) ≤ l := by omega
        exact (max_eq_left this).symm
      · omega
    | some l2 =>
      rw [waitLoopFrom_cons_some 0 rs hw, waitLoopFrom_shift rs l2 (0 + 1)] at h ⊢
      simp only at h ⊢
      cases hx : (waitLoopFrom l2 0 rs).exitAt with
      | none => simp [hx] at h
      | some x =>
        simp only [hx, Option.map_some', Option.some.injEq] at h
        subst h
        obtain ⟨h1, s, hs, hgt, hle⟩ := ih l2 x hx
        refine ⟨?_, s, by simpa using hs, hgt, hle⟩
        rw [h1]
        cases r with
        | fail e =>
          simp only [waitIter, Option.some.injEq] at hw
          subst hw
          simp [maxAbove]
        | ok u =>
          rw [waitIter_ok] at hw
          by_cases hu : u > 26624
          · by_cases hl : u > l
            · simp only [hu, hl, if_true, Option.some.injEq] at hw
              subst hw
              simp only [List.take_succ_cons, maxAbove, validReplaySize_eq, hu, if_true]
              rw [← max_assoc, max_eq_right (le_of_lt hl)]
            · simp [hu, hl] at hw
          · simp only [hu, if_false, Option.some.injEq] at hw
            subst hw
            simp [maxAbove, validReplaySize_eq, hu]

/-- Samples after the one at which the loop left are never looked at. -/
theorem waitLoopFrom_append (samples more : List StatResult) :
    ∀ (l : Int) (k i : Nat), (waitLoopFrom l k samples).exitAt = some i →
      waitLoopFrom l k (samples ++ more) = waitLoopFrom l k samples := by
  induction samples with
  | nil => intro l k i h; simp [waitLoopFrom] at h
  | cons r rs ih =>
    intro l k i h
    cases hw : waitIter l r with
    | none =>
      rw [List.cons_append, waitLoopFrom_cons_none k _ hw, waitLoopFrom_cons_none k _ hw]
    | some l2 =>
      rw [List.cons_append, waitLoopFrom_cons_some k _ hw, waitLoopFrom_cons_some k _ hw]
      rw [waitLoopFrom_cons_some k _ hw] at h
      exact ih l2 (k + 1) i h

theorem countP_isUpload_waitTrace (path : String) (n : Nat) :
    (waitTrace path n).countP Effect.isUpload = 0 := by
  rw [List.countP_eq_zero]
  intro e he
  simp [(waitTrace_props path n e he).1]

theorem countP_isUpload_afterWait (split : String → String × String × String)
    (path : String) (up : UploadResult) :
    (afterWait split path up).countP Effect.isUpload = 1 := by
  unfold afterWait
  cases up.err <;> simp [List.countP_cons, Effect.isUpload]

theorem handleReplay_exit (split : String → String × String × String)
    (path : String) (samples : List StatResult) (up : UploadResult) (i : Nat)
    (h : (waitLoop samples).exitAt = some i) :
    handleReplay split path samples up =
      { trace := Effect.debugf "uploading replay: %v" [path] ::
          (waitTrace path (i + 1) ++ afterWait split path up),
        returned := true } := by
  simp [handleReplay, h]

theorem handleReplay_waiting (split : String → String × String × String)
    (path : String) (samples : List StatResult) (up : UploadResult)
    (h : (waitLoop samples).exitAt = none) :
    handleReplay split path samples up =
      { trace := Effect.debugf "uploading replay: %v" [path] ::
          waitTrace path samples.length,
        returned := false } := by
  simp [handleReplay, h]

/-- C1: for every sequence of samples, the wait loop of `handleReplay` exits
at sample `i` exactly when `i` is the first index whose stat succeeds with a
size above 26624 for which an earlier successful sample had a size above
26624 that is at least as large.  At the exit, `lastSize` is the largest of
the earlier sizes above the threshold and the size of sample `i` is not
greater than it.  The loop exits at most once: samples after the exit change
nothing.  `UploadReplay` is called once, after the `i + 1` stats of the loop,
when the loop has exited, and not at all while it has not. -/
theorem C1_wait_loop_exit
    (split : String → String × String × String) (path : String) (up : UploadResult)
    (samples : List StatResult) (i : Nat) :
    ((waitLoop samples).exitAt = some i ↔
      (ExitCond samples i ∧ ∀ m, m < i → ¬ ExitCond samples m)) ∧
    ((waitLoop samples).exitAt = some i →
      (waitLoop samples).lastSize = maxAbove (samples.take i) ∧
      (∃ s, samples[i]? = some (StatResult.ok s) ∧ s > 26624 ∧
        s ≤ (waitLoop samples).lastSize) ∧
      (∀ more, waitLoop (samples ++ more) = waitLoop samples) ∧
      (handleReplay split path samples up).trace =
        Effect.debugf "uploading replay: %v" [path] ::
          (waitTrace path (i + 1) ++ afterWait split path up) ∧
      (waitTrace path (i + 1)).countP Effect.isUpload = 0 ∧
      (handleReplay split path samples up).trace.countP Effect.isUpload = 1) ∧
    ((waitLoop samples).exitAt = none →
      (handleReplay split path samples up).trace.countP Effect.isUpload = 0) := by
  refine ⟨waitLoop_exit_iff samples i, fun h => ?_, fun h => ?_⟩
  · obtain ⟨h1, h2⟩ := waitLoopFrom_lastSize samples 0 i h
    refine ⟨?_, h2, fun more => waitLoopFrom_append samples more 0 0 i h, ?_,
      countP_isUpload_waitTrace path (i + 1), ?_⟩
    · unfold waitLoop
      rw [h1, max_eq_right (maxAbove_nonneg _)]
    · rw [handleReplay_exit split path samples up i h]
    · rw [handleReplay_exit split path samples up i h]
      simp [List.countP_cons, Effect.isUpload, countP_isUpload_afterWait,
        countP_isUpload_waitTrace]
  · rw [handleReplay_waiting split path samples up h]
    simp [List.countP_cons, Effect.isUpload, countP_isUpload_waitTrace]

/-- C1 at a concrete input: a failed stat, then sizes 1000, 30000, 100,
35000, 33000 and 40000.  The loop exits at sample 5 (33000 bytes, not
greater than the recorded 35000); the sample after it is never looked at. -/
theorem C1_wait_loop_exit_witness :
    (waitLoop [.fail "no such file", .ok 1000, .ok 30000, .ok 100, .ok 35000, .ok 33000,
      .ok 40000]).lastSize = 35000 ∧
    (handleReplay (fun p => ("", p, "")) "a.SC2Replay"
      [.fail "no such file", .ok 1000, .ok 30000, .ok 100, .ok 35000, .ok 33000, .ok 40000]
      ⟨"R1", none⟩).trace.countP Effect.isUpload = 1 :=
  have h := (C1_wait_loop_exit (fun p => ("", p, "")) "a.SC2Replay" ⟨"R1", none⟩
    [.fail "no such file", .ok 1000, .ok 30000, .ok 100, .ok 35000, .ok 33000, .ok 40000]
    5).2.1 (by decide)
  ⟨h.1.trans (by decide), h.2.2.2.2.2⟩

/-! ### Files written incrementally -/

theorem pairwise_getElem? {α : Type} {R : α → α → Prop} {l : List α} (h : l.Pairwise R)
    {a b : Nat} (hab : a < b) {x y : α} (hx : l[a]? = some x) (hy : l[b]? = some y) :
    R x y := by
  obtain ⟨ha, rfl⟩ := List.getElem?_eq_some.1 hx
  obtain ⟨hb, rfl⟩ := List.getElem?_eq_some.1 hy
  exact List.pairwise_iff_getElem.1 h a b ha hb hab

theorem getElem?_map_ok {sizes : List Int} {i : Nat} {s : Int} :
    (sizes.map StatResult.ok)[i]? = some (StatResult.ok s) ↔ sizes[i]? = some s := by
  rw [List.getElem?_map]
  cases sizes[i]? with
  | none => simp
  | some x => simp

/-- For sizes that never decrease, the exit condition says that the size is
the one of the sample just before. -/
theorem exitCond_iff_stableAt {sizes : List Int} (h : sizes.Pairwise (· ≤ ·)) (i : Nat) :
    ExitCond (sizes.map StatResult.ok) i ↔ StableAt sizes i := by
  constructor
  · rintro ⟨s, hs, hgt, j, hj, t, ht, htgt, hge⟩
    rw [getElem?_map_ok] at hs ht
    obtain ⟨i0, rfl⟩ : ∃ i0, i = i0 + 1 := ⟨i - 1, by omega⟩
    have hlen : i0 + 1 < sizes.length := (List.getElem?_eq_some.1 hs).1
    obtain ⟨p, hp⟩ : ∃ p, sizes[i0]? = some p :=
      ⟨sizes[i0], List.getElem?_eq_getElem (by omega)⟩
    have h1 : p ≤ s := pairwise_getElem? h (by omega) hp hs
    have h2 : t ≤ p := by
      rcases Nat.lt_or_ge j i0 with hlt | hge2
      · exact pairwise_getElem? h hlt ht hp
      · have : j = i0 := by omega
        subst this
        rw [hp] at ht
        cases ht
        exact le_refl _
    have : p = s := by omega
    subst this
    exact ⟨i0, p, rfl, hp, hs, hgt⟩
  · rintro ⟨j, s, rfl, h1, h2, hgt⟩
    exact ⟨s, getElem?_map_ok.2 h2, hgt, j, by omega, s, getElem?_map_ok.2 h1, hgt,
      le_refl _⟩

/-- In a list of sizes that strictly increase no index meets the exit
condition, whatever follows the index. -/
theorem not_exitCond_of_increasing {sizes : List Int} (h : sizes.Pairwise (· < ·))
    (rest : List StatResult) (i : Nat) (hi : i < sizes.length) :
    ¬ ExitCond (sizes.map StatResult.ok ++ rest) i := by
  rintro ⟨s, hs, _, j, hj, t, ht, _, hge⟩
  rw [List.getElem?_append_left (by simpa using hi)] at hs
  rw [List.getElem?_append_left (by simp; omega)] at ht
  rw [getElem?_map_ok] at hs ht
  have : t < s := pairwise_getElem? h hj ht hs
  omega

theorem spawnedPollers_waitTrace (statuses : String → List StatusResponse)
    (path : String) (t : List Effect) (n : Nat) :
    spawnedPollers statuses (waitTrace path n ++ t) = spawnedPollers statuses t := by
  induction n with
  | zero => simp [waitTrace]
  | succ n ih => simpa [waitTrace, spawnedPollers] using ih

theorem spawnedPollers_afterWait (statuses : String → List StatusResponse)
    (split : String → String × String × String) (path : String) (up : UploadResult) :
    spawnedPollers statuses (afterWait split path up) =
      match up.err with
      | none => [watchReplayStatus up.rqid (statuses up.rqid)]
      | some _ => [] := by
  unfold afterWait
  cases up.err <;> simp [spawnedPollers]

/-- The whole run for a file whose wait loop leaves at sample `i`. -/
theorem replayRun_exit (split : String → String × String × String)
    (path : String) (samples : List StatResult) (up : UploadResult)
    (statuses : String → List StatusResponse) (i : Nat)
    (h : (waitLoop samples).exitAt = some i) :
    replayRun split path samples up statuses =
      ({ trace := Effect.debugf "uploading replay: %v" [path] ::
            (waitTrace path (i + 1) ++ afterWait split path up),
         returned := true },
       match up.err with
       | none => [watchReplayStatus up.rqid (statuses up.rqid)]
       | some _ => []) := by
  have e1 : ∀ (f : String) (a : List String) (t : List Effect),
      spawnedPollers statuses (Effect.debugf f a :: t) = spawnedPollers statuses t :=
    fun _ _ _ => rfl
  unfold replayRun
  rw [handleReplay_exit split path samples up i h]
  simp only [e1, spawnedPollers_waitTrace, spawnedPollers_afterWait]

/-- A file that grows up to 40960 bytes and is then seen at 40960 bytes a
second time: the loop leaves at that second sample. -/
theorem waitLoop_grow_to_final (pre : List Int) (rest : List StatResult)
    (hinc : pre.Chain' (· < ·)) (hlt : ∀ x ∈ pre, x < 40960) :
    (waitLoop ((pre ++ [40960, 40960]).map StatResult.ok ++ rest)).exitAt
      = some (pre.length + 1) := by
  rw [waitLoop_exit_iff]
  have hsplit : (pre ++ [40960, 40960]).map StatResult.ok ++ rest =
      (pre ++ [40960]).map StatResult.ok ++ (StatResult.ok 40960 :: rest) := by simp
  have hpw : (pre ++ [(40960 : Int)]).Pairwise (· < ·) := by
    rw [List.pairwise_append]
    refine ⟨List.chain'_iff_pairwise.1 hinc, List.pairwise_singleton _ _, ?_⟩
    intro a ha b hb
    simp only [List.mem_singleton] at hb
    subst hb
    exact hlt a ha
  constructor
  · refine ⟨40960, ?_, by decide, pre.length, by omega, 40960, ?_, by decide, le_refl _⟩
    · rw [hsplit, List.getElem?_append_right (by simp)]
      simp
    · rw [hsplit, List.getElem?_append_left (by simp)]
      rw [getElem?_map_ok, List.getElem?_append_right (le_refl _)]
      simp
  · intro m hm
    rw [hsplit]
    exact not_exitCond_of_increasing hpw _ m (by simpa using hm)

/-- C7: when every stat succeeds and the sizes never decrease, the wait loop
of `handleReplay` leaves exactly at the first sample `i >= 1` whose size is
above 26624 and equal to the size of sample `i - 1`.  For a file whose
sampled sizes strictly increase up to 40960 bytes and then read 40960 again,
the loop leaves at the second sample that reads 40960; the whole run is then
the one written out here: the debug line, one sleep and one stat per sample
up to the exit, the single upload with its report and, when the upload is
accepted, the one status poller run on the scripted status answers. -/
theorem C7_incremental_write_stabilises :
    (∀ (sizes : List Int) (i : Nat), sizes.Chain' (· ≤ ·) →
      ((waitLoop (sizes.map StatResult.ok)).exitAt = some i ↔
        (StableAt sizes i ∧ ∀ m, m < i → ¬ StableAt sizes m))) ∧
    (∀ (split : String → String × String × String) (path : String) (up : UploadResult)
        (statuses : String → List StatusResponse) (pre : List Int)
        (rest : List StatResult),
      pre.Chain' (· < ·) → (∀ x ∈ pre, x < 40960) →
      (waitLoop ((pre ++ [40960, 40960]).map StatResult.ok ++ rest)).exitAt
        = some (pre.length + 1) ∧
      replayRun split path ((pre ++ [40960, 40960]).map StatResult.ok ++ rest) up statuses =
        ({ trace := Effect.debugf "uploading replay: %v" [path] ::
              (waitTrace path (pre.length + 2) ++ afterWait split path up),
           returned := true },
         match up.err with
         | none => [watchReplayStatus up.rqid (statuses up.rqid)]
         | some _ => [])) := by
  constructor
  · intro sizes i hmono
    have hpw : sizes.Pairwise (· ≤ ·) := List.chain'_iff_pairwise.1 hmono
    rw [waitLoop_exit_iff]
    simp only [exitCond_iff_stableAt hpw]
  · intro split path up statuses pre rest hinc hlt
    have h := waitLoop_grow_to_final pre rest hinc hlt
    exact ⟨h, replayRun_exit split path _ up statuses (pre.length + 1) h⟩

/-- C7 at a concrete input: a file sampled at 1000, 20000, 30000, 40960 and
40960 bytes leaves the loop at sample 4; the upload is accepted as `R1` and
the service answers `("", nil)` and then `("MAP1", nil)`. -/
theorem C7_incremental_write_stabilises_witness :
    (waitLoop ((([1000, 20000, 30000] : List Int) ++ [40960, 40960]).map StatResult.ok
      ++ [])).exitAt = some 4 ∧
    (replayRun (fun p => ("", p, "")) "a.SC2Replay"
      ((([1000, 20000, 30000] : List Int) ++ [40960, 40960]).map StatResult.ok ++ [])
      ⟨"R1", none⟩ (fun _ => [⟨"", none⟩, ⟨"MAP1", none⟩])).2 =
      [{ trace := [Effect.sleep 1000, Effect.getReplayStatus "R1",
                   Effect.debugf "sc2replaystats process..: [%v] %s" ["R1", ""],
                   Effect.sleep 1000, Effect.getReplayStatus "R1",
                   Effect.infof "sc2replaystats processed: [%v] %s" ["R1", "MAP1"]],
         returned := true }] :=
  have h := C7_incremental_write_stabilises.2 (fun p => ("", p, "")) "a.SC2Replay"
    ⟨"R1", none⟩ (fun _ => [⟨"", none⟩, ⟨"MAP1", none⟩]) [1000, 20000, 30000] []
    (by simp) (by decide)
  ⟨h.1, by rw [h.2]; decide⟩

/-! ### What the loop compares a sample with -/

theorem lastAbove_eq (samples : List StatResult) :
    lastAbove samples = samples.foldl lastAboveStep 0 := rfl

/-- A sample that does not end the loop sets `lastSize` as `lastAbove` does. -/
theorem waitIter_some_eq {l l2 : Int} {r : StatResult} (h : waitIter l r = some l2) :
    l2 = lastAboveStep l r := by
  cases r with
  | fail e =>
    simp only [waitIter, Option.some.injEq] at h
    simp [lastAboveStep, h]
  | ok s =>
    rw [waitIter_ok] at h
    by_cases hs : s > 26624
    · by_cases hl : s > l
      · simp only [hs, hl, if_true, Option.some.injEq] at h
        subst h
        simp [lastAboveStep, validReplaySize_eq, hs]
      · simp [hs, hl] at h
    · simp only [hs, if_false, Option.some.injEq] at h
      subst h
      simp [lastAboveStep, validReplaySize_eq, hs]

/-- While the loop has not left, `lastSize` is the size of the most recent
sample above the threshold. -/
theorem waitLoopFrom_running_lastSize (samples : List StatResult) :
    ∀ (l : Int) (k : Nat), (waitLoopFrom l k samples).exitAt = none →
      (waitLoopFrom l k samples).lastSize = samples.foldl lastAboveStep l := by
  induction samples with
  | nil => intro l k _; rfl
  | cons r rs ih =>
    intro l k h
    cases hw : waitIter l r with
    | none =>
      rw [waitLoopFrom_cons_none k rs hw] at h
      simp at h
    | some l2 =>
      rw [waitLoopFrom_cons_some k rs hw] at h ⊢
      rw [ih l2 (k + 1) h, List.foldl_cons, waitIter_some_eq hw]

/-- A loop that has not left after `xs` goes on with the samples that follow. -/
theorem waitLoopFrom_append_running (xs ys : List StatResult) :
    ∀ (l : Int) (k : Nat), (waitLoopFrom l k xs).exitAt = none →
      waitLoopFrom l k (xs ++ ys) =
        waitLoopFrom (waitLoopFrom l k xs).lastSize (k + xs.length) ys := by
  induction xs with
  | nil => intro l k _; simp [waitLoopFrom]
  | cons r rs ih =>
    intro l k h
    cases hw : waitIter l r with
    | none =>
      rw [waitLoopFrom_cons_none k rs hw] at h
      simp at h
    | some l2 =>
      rw [waitLoopFrom_cons_some k rs hw] at h
      rw [List.cons_append, waitLoopFrom_cons_some k _ hw, waitLoopFrom_cons_some k _ hw,
        ih l2 (k + 1) h]
      congr 1
      simp only [List.length_cons]
      omega

/-- The loop leaves at its first sample exactly when `waitIter` breaks. -/
theorem waitLoopFrom_exit_here (l : Int) (k : Nat) (r : StatResult) (rs : List StatResult) :
    (waitLoopFrom l k (r :: rs)).exitAt = some k ↔ waitIter l r = none := by
  constructor
  · intro h
    cases hw : waitIter l r with
    | none => rfl
    | some l2 =>
      rw [waitLoopFrom_cons_some k rs hw] at h
      have := waitLoopFrom_exit_ge rs l2 (k + 1) k h
      omega
  · intro hw
    rw [waitLoopFrom_cons_none k rs hw]

theorem waitIter_none_iff (l : Int) (r : StatResult) :
    waitIter l r = none ↔ ∃ s, r = .ok s ∧ s > 26624 ∧ s ≤ l := by
  cases r with
  | fail e => simp [waitIter]
  | ok s =>
    rw [waitIter_ok]
    by_cases hs : s > 26624
    · by_cases hl : s > l
      · simp only [hs, hl, if_true]
        constructor
        · intro h; cases h
        · rintro ⟨u, hu, _, hle⟩
          cases hu
          omega
      · simp only [hs, hl, if_true, if_false, true_iff]
        exact ⟨s, rfl, hs, by omega⟩
    · simp only [hs, if_false]
      constructor
      · intro h; cases h
      · rintro ⟨u, hu, hgt, _⟩
        cases hu
        exact absurd hgt hs

/-- C8 as amended: at a sample that the wait loop of `handleReplay` reaches,
growth is judged against `lastSize`, which is the size of the most recent
earlier sample that succeeded with a size above 26624 (0 when there is
none).  A size above 26624 that is greater than `lastSize` keeps the loop
going and becomes the new `lastSize`; the loop leaves at the sample exactly
when it succeeds with a size above 26624 that is not greater than
`lastSize`.  When the sample just before succeeded with a size above 26624,
`lastSize` is the size of that sample. -/
theorem C8_growth_against_lastSize (before after : List StatResult) (r : StatResult)
    (hrun : (waitLoop before).exitAt = none) :
    (waitLoop before).lastSize = lastAbove before ∧
    (∀ s, r = StatResult.ok s → s > 26624 → s > lastAbove before →
      waitLoop (before ++ [r]) = { exitAt := none, lastSize := s }) ∧
    ((waitLoop (before ++ r :: after)).exitAt = some before.length ↔
      ∃ s, r = StatResult.ok s ∧ s > 26624 ∧ s ≤ lastAbove before) ∧
    (∀ b p, before = b ++ [StatResult.ok p] → p > 26624 → lastAbove before = p) := by
  have hl : (waitLoop before).lastSize = lastAbove before := by
    rw [lastAbove_eq]
    exact waitLoopFrom_running_lastSize before 0 0 hrun
  have happ : ∀ ys, waitLoop (before ++ ys) =
      waitLoopFrom (lastAbove before) before.length ys := by
    intro ys
    have := waitLoopFrom_append_running before ys 0 0 hrun
    unfold waitLoop at hl ⊢
    rw [this, hl, Nat.zero_add]
  refine ⟨hl, ?_, ?_, ?_⟩
  · rintro s rfl hs hgt
    rw [happ]
    have : waitIter (lastAbove before) (StatResult.ok s) = some s := by
      rw [waitIter_ok]
      simp [hs, hgt]
    rw [waitLoopFrom_cons_some _ _ this]
    rfl
  · rw [happ, waitLoopFrom_exit_here, waitIter_none_iff]
  · rintro b p rfl hp
    rw [lastAbove_eq, List.foldl_append]
    simp [lastAboveStep, validReplaySize_eq, hp]

/-- C8 as amended, at a concrete input: after samples of 30000 and 100 bytes
the recorded size is 30000, so a sample of 28000 bytes ends the loop and a
sample of 31000 bytes does not. -/
theorem C8_growth_against_lastSize_witness :
    (waitLoop [.ok 30000, .ok 100]).lastSize = 30000 ∧
    waitLoop ([.ok 30000, .ok 100] ++ [.ok 31000]) = { exitAt := none, lastSize := 31000 } ∧
    (waitLoop ([.ok 30000, .ok 100] ++ .ok 28000 :: [])).exitAt = some 2 :=
  have h := C8_growth_against_lastSize [.ok 30000, .ok 100] [] (.ok 28000) (by decide)
  have h2 := C8_growth_against_lastSize [.ok 30000, .ok 100] [] (.ok 31000) (by decide)
  ⟨h.1.trans (by decide), h2.2.1 31000 rfl (by decide) (by decide),
    h.2.2.1.2 ⟨28000, rfl, by decide, by decide⟩⟩

/-- C8 as stated fails: with samples of 30000, 100 and 28000 bytes, the third
sample is above 26624 and strictly greater than the immediately previous
observed size (100), yet the loop leaves at it, because 28000 is not
greater than the recorded `lastSize` 30000. -/
theorem C8_counterexample :
    ([.ok 30000, .ok 100, .ok 28000] : List StatResult)[2]? = some (.ok 28000) ∧
    prevObserved [.ok 30000, .ok 100, .ok 28000] 2 = some 100 ∧
    (28000 : Int) > 26624 ∧ (28000 : Int) > 100 ∧
    (waitLoop [.ok 30000, .ok 100]).exitAt = none ∧
    (waitLoop [.ok 30000, .ok 100, .ok 28000]).exitAt = some 2 ∧
    ¬ GrowthByPrevious [.ok 30000, .ok 100, .ok 28000] := by
  refine ⟨by decide, by decide, by decide, by decide, by decide, by decide, ?_⟩
  intro h
  have h1 := (h 2 28000 100 (by decide) (by decide) (by decide) (by decide)).1 (by decide)
  exact absurd h1 (by decide)

/-! ## The status poller -/

theorem watchReplayStatus_error (rqid rid : String) (e : GoError)
    (rest : List StatusResponse) :
    watchReplayStatus rqid (⟨rid, some e⟩ :: rest) =
      { trace := [Effect.sleep 1000, Effect.getReplayStatus rqid,
                  Effect.errorf "error checking reply status: %v: %v" [rqid, e]],
        returned := true } := rfl

theorem watchReplayStatus_value (rqid v : String) (hv : v ≠ "")
    (rest : List StatusResponse) :
    watchReplayStatus rqid (⟨v, none⟩ :: rest) =
      { trace := [Effect.sleep 1000, Effect.getReplayStatus rqid,
                  Effect.infof "sc2replaystats processed: [%v] %s" [rqid, v]],
        returned := true } := by
  simp [watchReplayStatus, hv]

theorem watchReplayStatus_empty (rqid : String) (rest : List StatusResponse) :
    watchReplayStatus rqid (⟨"", none⟩ :: rest) =
      (watchReplayStatus rqid rest).after
        [Effect.sleep 1000, Effect.getReplayStatus rqid,
         Effect.debugf "sc2replaystats process..: [%v] %s" [rqid, ""]] := by
  simp [watchReplayStatus]

/-- After `n` answers `("", nil)` the poller goes on with the answers that
follow, having done `n` rounds of sleep, query and progress line. -/
theorem watchReplayStatus_replicate (rqid : String) (rest : List StatusResponse) (n : Nat) :
    watchReplayStatus rqid (List.replicate n ⟨"", none⟩ ++ rest) =
      (watchReplayStatus rqid rest).after (pollTrace rqid n) := by
  induction n with
  | zero => simp [pollTrace, Run.after]
  | succ n ih =>
    rw [List.replicate_succ, List.cons_append, watchReplayStatus_empty, ih]
    simp [Run.after, pollTrace]

theorem pollTrace_counts (rqid : String) (n : Nat) :
    (pollTrace rqid n).countP Effect.isQuery = n ∧
    (pollTrace rqid n).countP Effect.isSleep = n ∧
    (pollTrace rqid n).countP Effect.isSuccess = 0 ∧
    (pollTrace rqid n).countP Effect.isFailure = 0 := by
  induction n with
  | zero => simp [pollTrace]
  | succ n ih =>
    obtain ⟨h1, h2, h3, h4⟩ := ih
    simp [pollTrace, List.countP_cons, Effect.isQuery, Effect.isSleep, Effect.isSuccess,
      Effect.isFailure, h1, h2, h3, h4]

/-- C3: when `GetReplayStatus` answers `("", nil)` `n` times and then
`(v, nil)` with `v` not empty, `watchReplayStatus` returns after exactly
`n + 1` rounds: `n` rounds of a one-second sleep, a query and the progress
line, and a last round of a one-second sleep, a query and the one success
report with the value `v`.  So there are `n + 1` queries and `n + 1` sleeps,
every query has its sleep right before it, there is one success report and
no failure report, and the answers scripted after `(v, nil)` are never asked
for.  For `n = 3` and `v = "MAP1"` these are 4 queries and one success report
with `"MAP1"`. -/
theorem C3_poll_until_value (rqid v : String) (n : Nat) (rest : List StatusResponse)
    (hv : v ≠ "") :
    watchReplayStatus rqid (List.replicate n ⟨"", none⟩ ++ ⟨v, none⟩ :: rest) =
      { trace := pollTrace rqid n ++
          [Effect.sleep 1000, Effect.getReplayStatus rqid,
           Effect.infof "sc2replaystats processed: [%v] %s" [rqid, v]],
        returned := true } ∧
    (watchReplayStatus rqid (List.replicate n ⟨"", none⟩ ++ ⟨v, none⟩ :: rest)).trace.countP
      Effect.isQuery = n + 1 ∧
    (watchReplayStatus rqid (List.replicate n ⟨"", none⟩ ++ ⟨v, none⟩ :: rest)).trace.countP
      Effect.isSleep = n + 1 ∧
    (watchReplayStatus rqid (List.replicate n ⟨"", none⟩ ++ ⟨v, none⟩ :: rest)).trace.filter
      Effect.isSuccess = [Effect.infof "sc2replaystats processed: [%v] %s" [rqid, v]] ∧
    (watchReplayStatus rqid (List.replicate n ⟨"", none⟩ ++ ⟨v, none⟩ :: rest)).trace.countP
      Effect.isFailure = 0 ∧
    (watchReplayStatus "R1" (List.replicate 3 ⟨"", none⟩ ++ [⟨"MAP1", none⟩])).trace.countP
      Effect.isQuery = 4 ∧
    (watchReplayStatus "R1" (List.replicate 3 ⟨"", none⟩ ++ [⟨"MAP1", none⟩])).trace.filter
      Effect.isSuccess = [Effect.infof "sc2replaystats processed: [%v] %s" ["R1", "MAP1"]] := by
  have h : watchReplayStatus rqid (List.replicate n ⟨"", none⟩ ++ ⟨v, none⟩ :: rest) =
      { trace := pollTrace rqid n ++
          [Effect.sleep 1000, Effect.getReplayStatus rqid,
           Effect.infof "sc2replaystats processed: [%v] %s" [rqid, v]],
        returned := true } := by
    rw [watchReplayStatus_replicate, watchReplayStatus_value rqid v hv]
    rfl
  obtain ⟨h1, h2, h3, h4⟩ := pollTrace_counts rqid n
  have hf : (pollTrace rqid n).filter Effect.isSuccess = [] := by
    rw [List.filter_eq_nil_iff]
    intro e he
    have := List.countP_eq_zero.1 h3 e he
    simpa using this
  refine ⟨h, ?_, ?_, ?_, ?_, by decide, by decide⟩
  · rw [h]
    simp [List.countP_append, List.countP_cons, Effect.isQuery, h1]
  · rw [h]
    simp [List.countP_append, List.countP_cons, Effect.isSleep, h2]
  · rw [h]
    simp [List.filter_append, List.filter_cons, Effect.isSuccess, hf]
  · rw [h]
    simp [List.countP_append, List.countP_cons, Effect.isFailure, h4]

/-- C3 at `n = 3` and `v = "MAP1"`, with a further scripted answer that is
never asked for. -/
theorem C3_poll_until_value_witness :
    watchReplayStatus "R1"
        (List.replicate 3 ⟨"", none⟩ ++ ⟨"MAP1", none⟩ :: [⟨"MAP2", none⟩]) =
      { trace := pollTrace "R1" 3 ++
          [Effect.sleep 1000, Effect.getReplayStatus "R1",
           Effect.infof "sc2replaystats processed: [%v] %s" ["R1", "MAP1"]],
        returned := true } :=
  (C3_poll_until_value "R1" "MAP1" 3 [⟨"MAP2", none⟩] (by decide)).1

/-- Among the answers given to the poller, one that carries an error is the
last one: the answers before it are all `("", nil)`, the poller has
returned, and the one failure report is the only report. -/
theorem watchReplayStatus_error_given (rqid : String) (rs : List StatusResponse) :
    ∀ (i : Nat) (rid : String) (e : GoError),
      (answersGiven rqid rs)[i]? = some ⟨rid, some e⟩ →
      (watchReplayStatus rqid rs).queries = i + 1 ∧
      (∀ j, j < i → rs[j]? = some ⟨"", none⟩) ∧
      (watchReplayStatus rqid rs).returned = true ∧
      (watchReplayStatus rqid rs).trace.filter Effect.isFailure =
        [Effect.errorf "error checking reply status: %v: %v" [rqid, e]] ∧
      (watchReplayStatus rqid rs).trace.countP Effect.isSuccess = 0 := by
  induction rs with
  | nil =>
    intro i rid e h
    simp [answersGiven] at h
  | cons r rest ih =>
    intro i rid e h
    obtain ⟨rid0, err0⟩ := r
    cases err0 with
    | some e0 =>
      have hq : (watchReplayStatus rqid (⟨rid0, some e0⟩ :: rest)).queries = 1 := by
        rw [watchReplayStatus_error]
        simp [Run.queries, List.countP_cons, Effect.isQuery]
      simp only [answersGiven, hq] at h
      cases i with
      | zero =>
        simp only [List.take_succ_cons, List.take_zero, List.getElem?_cons_zero,
          Option.some.injEq, StatusResponse.mk.injEq] at h
        obtain ⟨_, he⟩ := h
        cases he
        refine ⟨hq, fun j hj => by omega, ?_, ?_, ?_⟩
        · rw [watchReplayStatus_error]
        · rw [watchReplayStatus_error]
          simp [List.filter_cons, Effect.isFailure]
        · rw [watchReplayStatus_error]
          simp [List.countP_cons, Effect.isSuccess]
      | succ i => simp at h
    | none =>
      by_cases hv : rid0 = ""
      · subst hv
        have hq : (watchReplayStatus rqid (⟨"", none⟩ :: rest)).queries =
            (watchReplayStatus rqid rest).queries + 1 := by
          rw [watchReplayStatus_empty]
          simp [Run.queries, Run.after, List.countP_cons, Effect.isQuery]
        have hg : answersGiven rqid (⟨"", none⟩ :: rest) =
            ⟨"", none⟩ :: answersGiven rqid rest := by
          simp only [answersGiven, hq, List.take_succ_cons]
        rw [hg] at h
        cases i with
        | zero => simp at h
        | succ i =>
          simp only [List.getElem?_cons_succ] at h
          obtain ⟨h1, h2, h3, h4, h5⟩ := ih i rid e h
          refine ⟨by rw [hq, h1], ?_, ?_, ?_, ?_⟩
          · intro j hj
            cases j with
            | zero => simp
            | succ j => simpa using h2 j (by omega)
          · rw [watchReplayStatus_empty]
            exact h3
          · rw [watchReplayStatus_empty]
            simpa [Run.after, List.filter_cons, Effect.isFailure] using h4
          · rw [watchReplayStatus_empty]
            simpa [Run.after, List.countP_cons, Effect.isSuccess] using h5
      · have hq : (watchReplayStatus rqid (⟨rid0, none⟩ :: rest)).queries = 1 := by
          rw [watchReplayStatus_value rqid rid0 hv]
          simp [Run.queries, List.countP_cons, Effect.isQuery]
        simp only [answersGiven, hq] at h
        cases i with
        | zero => simp at h
        | succ i => simp at h

/-- C4: the first answer of `GetReplayStatus` that carries an error ends the
polling of `watchReplayStatus`.  After `n` answers `("", nil)`, an answer
with the error `e` (and any value) makes the poller return after its
`n + 1`st query with one failure report, which carries the `rqid` and `e`,
and without a success report; the answers scripted after it are never asked
for.  More generally, for every script, an answer given to the poller that
carries an error is the last answer given, preceded by answers `("", nil)`
only.  An error on the first call gives one query in all.  An answer
`("", nil)` is no failure: the poller logs the progress line and goes round
again, and its next effects, when a further answer is there, are the sleep
and the next query. -/
theorem C4_poll_error_is_final (rqid : String) :
    (∀ (n : Nat) (rid : String) (e : GoError) (rest : List StatusResponse),
      watchReplayStatus rqid (List.replicate n ⟨"", none⟩ ++ ⟨rid, some e⟩ :: rest) =
        { trace := pollTrace rqid n ++
            [Effect.sleep 1000, Effect.getReplayStatus rqid,
             Effect.errorf "error checking reply status: %v: %v" [rqid, e]],
          returned := true } ∧
      (pollTrace rqid n).countP Effect.isFailure = 0 ∧
      (pollTrace rqid n).countP Effect.isSuccess = 0 ∧
      (pollTrace rqid n).countP Effect.isQuery = n) ∧
    (∀ (rs : List StatusResponse) (i : Nat) (rid : String) (e : GoError),
      (answersGiven rqid rs)[i]? = some ⟨rid, some e⟩ →
      (watchReplayStatus rqid rs).queries = i + 1 ∧
      (∀ j, j < i → rs[j]? = some ⟨"", none⟩) ∧
      (watchReplayStatus rqid rs).returned = true ∧
      (watchReplayStatus rqid rs).trace.filter Effect.isFailure =
        [Effect.errorf "error checking reply status: %v: %v" [rqid, e]] ∧
      (watchReplayStatus rqid rs).trace.countP Effect.isSuccess = 0) ∧
    (∀ (rid : String) (e : GoError) (rest : List StatusResponse),
      (watchReplayStatus rqid (⟨rid, some e⟩ :: rest)).queries = 1) ∧
    (∀ (rest : List StatusResponse),
      watchReplayStatus rqid (⟨"", none⟩ :: rest) =
        (watchReplayStatus rqid rest).after
          [Effect.sleep 1000, Effect.getReplayStatus rqid,
           Effect.debugf "sc2replaystats process..: [%v] %s" [rqid, ""]]) ∧
    (∀ (r : StatusResponse) (rest : List StatusResponse),
      ∃ tail, (watchReplayStatus rqid (⟨"", none⟩ :: r :: rest)).trace =
        [Effect.sleep 1000, Effect.getReplayStatus rqid,
         Effect.debugf "sc2replaystats process..: [%v] %s" [rqid, ""],
         Effect.sleep 1000, Effect.getReplayStatus rqid] ++ tail) := by
  refine ⟨?_, watchReplayStatus_error_given rqid, ?_, watchReplayStatus_empty rqid, ?_⟩
  · intro n rid e rest
    obtain ⟨h1, _, h3, h4⟩ := pollTrace_counts rqid n
    refine ⟨?_, h4, h3, h1⟩
    rw [watchReplayStatus_replicate, watchReplayStatus_error]
    rfl
  · intro rid e rest
    rw [watchReplayStatus_error]
    simp [Run.queries, List.countP_cons, Effect.isQuery]
  · intro r rest
    rw [watchReplayStatus_empty]
    obtain ⟨rid0, err0⟩ := r
    cases err0 with
    | some e0 =>
      rw [watchReplayStatus_error]
      exact ⟨_, rfl⟩
    | none =>
      by_cases hv : rid0 = ""
      · subst hv
        rw [watchReplayStatus_empty]
        exact ⟨_, rfl⟩
      · rw [watchReplayStatus_value rqid rid0 hv]
        exact ⟨_, rfl⟩

/-- C4 at a concrete input: two answers `("", nil)`, then an answer that
carries both a value and an error, then an answer that is never asked for. -/
theorem C4_poll_error_is_final_witness :
    (watchReplayStatus "R1"
      [⟨"", none⟩, ⟨"", none⟩, ⟨"MAP1", some "timeout"⟩, ⟨"MAP2", none⟩]).queries = 2 + 1 ∧
    (watchReplayStatus "R1"
      [⟨"", none⟩, ⟨"", none⟩, ⟨"MAP1", some "timeout"⟩, ⟨"MAP2", none⟩]).trace.filter
        Effect.isFailure =
      [Effect.errorf "error checking reply status: %v: %v" ["R1", "timeout"]] ∧
    (watchReplayStatus "R1"
      [⟨"", none⟩, ⟨"", none⟩, ⟨"MAP1", some "timeout"⟩, ⟨"MAP2", none⟩]).trace.countP
        Effect.isSuccess = 0 :=
  have h := (C4_poll_error_is_final "R1").2.1
    [⟨"", none⟩, ⟨"", none⟩, ⟨"MAP1", some "timeout"⟩, ⟨"MAP2", none⟩] 2 "MAP1" "timeout"
    (by decide)
  ⟨h.1, h.2.2.2.1, h.2.2.2.2⟩

/-! ## The upload step of `handleReplay` -/

theorem waitTrace_filter (path : String) (n : Nat) :
    (waitTrace path n).filter Effect.isUpload = [] ∧
    (waitTrace path n).filter Effect.isFailure = [] ∧
    (waitTrace path n).filter Effect.isSpawnPoller = [] := by
  refine ⟨?_, ?_, ?_⟩ <;>
  · rw [List.filter_eq_nil_iff]
    intro e he
    obtain ⟨h1, h2, _, h4⟩ := waitTrace_props path n e he
    simp [h1, h2, h4]

/-- C5: once the wait loop of `handleReplay` has exited, `UploadReplay` is
called exactly once, with the file path, and `handleReplay` returns.  When
the upload returns `(rqid, nil)`, exactly one `watchReplayStatus` is started,
for that `rqid`, and no failure is reported.  When it returns an error,
exactly one failure is reported, with the map name that `SplitFilepath`
derives from the path and with that error, no status poller is started, and
there is no second upload. -/
theorem C5_upload_once_then_poll_or_report
    (split : String → String × String × String) (path : String)
    (samples : List StatResult) (up : UploadResult) (i : Nat)
    (hexit : (waitLoop samples).exitAt = some i) :
    (handleReplay split path samples up).returned = true ∧
    (handleReplay split path samples up).trace.filter Effect.isUpload
      = [Effect.uploadReplay path] ∧
    (up.err = none →
      (handleReplay split path samples up).trace =
        Effect.debugf "uploading replay: %v" [path] :: (waitTrace path (i + 1) ++
          [Effect.uploadReplay path,
           Effect.infof "sc2replaystats accepted : [%v] %s" [up.rqid, (split path).2.1],
           Effect.goWatchReplayStatus up.rqid]) ∧
      (handleReplay split path samples up).trace.filter Effect.isSpawnPoller
        = [Effect.goWatchReplayStatus up.rqid] ∧
      (handleReplay split path samples up).trace.filter Effect.isFailure = []) ∧
    (∀ e, up.err = some e →
      (handleReplay split path samples up).trace =
        Effect.debugf "uploading replay: %v" [path] :: (waitTrace path (i + 1) ++
          [Effect.uploadReplay path,
           Effect.errorf "failed to upload replay: %v: %v" [(split path).2.1, e]]) ∧
      (handleReplay split path samples up).trace.filter Effect.isFailure
        = [Effect.errorf "failed to upload replay: %v: %v" [(split path).2.1, e]] ∧
      (handleReplay split path samples up).trace.filter Effect.isSpawnPoller = []) := by
  obtain ⟨f1, f2, f3⟩ := waitTrace_filter path (i + 1)
  rw [handleReplay_exit split path samples up i hexit]
  refine ⟨rfl, ?_, ?_, ?_⟩
  · unfold afterWait
    cases up.err <;>
      simp [List.filter_cons, List.filter_append, Effect.isUpload, f1]
  · intro h
    simp [afterWait, h, List.filter_cons, List.filter_append, Effect.isSpawnPoller,
      Effect.isFailure, f2, f3]
  · intro e h
    simp [afterWait, h, List.filter_cons, List.filter_append, Effect.isSpawnPoller,
      Effect.isFailure, f2, f3]

/-- C5 at a concrete input: the file is seen at 30000 bytes twice and the
upload is refused. -/
theorem C5_upload_once_then_poll_or_report_witness :
    (handleReplay (fun p => ("dir", "Map (2)", p)) "dir/Map (2).SC2Replay"
      [.ok 30000, .ok 30000] ⟨"", some "HTTP 500"⟩).trace.filter Effect.isFailure
      = [Effect.errorf "failed to upload replay: %v: %v" ["Map (2)", "HTTP 500"]] ∧
    (handleReplay (fun p => ("dir", "Map (2)", p)) "dir/Map (2).SC2Replay"
      [.ok 30000, .ok 30000] ⟨"", some "HTTP 500"⟩).trace.filter Effect.isUpload
      = [Effect.uploadReplay "dir/Map (2).SC2Replay"] :=
  have h := C5_upload_once_then_poll_or_report (fun p => ("dir", "Map (2)", p))
    "dir/Map (2).SC2Replay" [.ok 30000, .ok 30000] ⟨"", some "HTTP 500"⟩ 1 (by decide)
  ⟨(h.2.2.2 "HTTP 500" rfl).2.1, h.2.1⟩

/-! ## The watcher event loop -/

/-- Go `strings.HasSuffix` holds exactly when the string is some string
followed by the suffix. -/
theorem hasSuffix_iff (s suffix : String) :
    hasSuffix s suffix = true ↔ ∃ pre : String, s = pre ++ suffix := by
  unfold hasSuffix
  rw [Bool.and_eq_true, decide_eq_true_eq, decide_eq_true_eq]
  constructor
  · rintro ⟨_, h⟩
    obtain ⟨t, ht⟩ : suffix.data <:+ s.data := List.suffix_iff_eq_drop.2 h.symm
    refine ⟨⟨t⟩, ?_⟩
    apply String.ext
    rw [String.data_append, ht]
  · rintro ⟨pre, rfl⟩
    rw [String.data_append]
    refine ⟨by simp, ?_⟩
    exact (List.suffix_iff_eq_drop.1 (List.suffix_append _ _)).symm

/-- Two suffixes of one string that have the same length are equal. -/
theorem suffix_unique {s a b p q : String} (ha : s = p ++ a) (hb : s = q ++ b)
    (hlen : a.data.length = b.data.length) : a = b := by
  have h1 : a.data <:+ s.data := by rw [ha, String.data_append]; exact List.suffix_append _ _
  have h2 : b.data <:+ s.data := by rw [hb, String.data_append]; exact List.suffix_append _ _
  apply String.ext
  rw [List.suffix_iff_eq_drop.1 h1, List.suffix_iff_eq_drop.1 h2, hlen]

theorem handleEvent_eq (create : Nat) (e : Event) :
    handleEvent create e =
      if accepted create e then [Effect.goHandleReplay e.name] else [] := by
  unfold handleEvent accepted isCreate
  by_cases h1 : e.op &&& create = create
  · by_cases h2 : hasSuffix e.name "eplay" = true
    · simp [h1, h2]
    · simp [h1, h2]
  · simp [h1]

theorem accepted_iff (create : Nat) (e : Event) :
    accepted create e = true ↔
      (e.op &&& create = create ∧ ∃ pre : String, e.name = pre ++ "eplay") := by
  unfold accepted isCreate
  rw [Bool.and_eq_true, decide_eq_true_eq, hasSuffix_iff]

/-- The detectors that the event loop starts are the accepted events among
those received before a channel is closed, one each and in order. -/
theorem eventLoop_dispatches (create : Nat) (msgs : List Received) :
    (eventLoop create msgs).trace.filter Effect.isDispatch =
      ((eventsBeforeClose msgs).filter (accepted create)).map
        (fun e => Effect.goHandleReplay e.name) := by
  induction msgs with
  | nil => rfl
  | cons m rest ih =>
    cases m with
    | event e =>
      simp only [eventLoop, Run.after, eventsBeforeClose, List.filter_append, ih,
        handleEvent_eq, List.filter_cons]
      cases accepted create e <;> simp [Effect.isDispatch]
    | eventsClosed => rfl
    | error err =>
      simp only [eventLoop, Run.after, eventsBeforeClose, List.filter_append, ih]
      simp [Effect.isDispatch]
    | errorsClosed => rfl

/-- C2: in the watcher event loop, `handleReplay` is started for an event
exactly when the event passes both tests: its `Op` has the bits of
`fsnotify.Create` set and its name ends in `"eplay"`.  An accepted event
starts one detector, for the name of the event, and a rejected event starts
none; over a whole run the detectors started are the accepted events, one
each and in order.  A name that does not end in `"eplay"` is never
forwarded, a name that ends in `".SC2Replay.writeCacheBackup"` does not end
in `"eplay"`, and every name that ends in `".SC2Replay"` is forwarded on a
create event.  With the mask 1 of the fsnotify library the first test says
that bit 0 of `Op` is set. -/
theorem C2_event_loop_dispatch (create : Nat) :
    (∀ e : Event,
      ((e.op &&& create = create ∧ ∃ pre : String, e.name = pre ++ "eplay") →
        handleEvent create e = [Effect.goHandleReplay e.name]) ∧
      (¬ (e.op &&& create = create ∧ ∃ pre : String, e.name = pre ++ "eplay") →
        handleEvent create e = [])) ∧
    (∀ msgs : List Received,
      (eventLoop create msgs).trace.filter Effect.isDispatch =
        ((eventsBeforeClose msgs).filter (accepted create)).map
          (fun e => Effect.goHandleReplay e.name)) ∧
    (∀ e : Event, accepted create e = true ↔
      (e.op &&& create = create ∧ ∃ pre : String, e.name = pre ++ "eplay")) ∧
    (∀ (msgs : List Received) (name : String), (¬ ∃ pre : String, name = pre ++ "eplay") →
      Effect.goHandleReplay name ∉ (eventLoop create msgs).trace) ∧
    (∀ pre : String, ¬ ∃ p : String, pre ++ ".SC2Replay.writeCacheBackup" = p ++ "eplay") ∧
    (∀ (pre : String) (op : Nat), op &&& create = create →
      handleEvent create ⟨pre ++ ".SC2Replay", op⟩ =
        [Effect.goHandleReplay (pre ++ ".SC2Replay")]) ∧
    (∀ e : Event, isCreate fsnotifyCreate e = true ↔ e.op.testBit 0 = true) := by
  have hacc : ∀ e : Event,
      ((e.op &&& create = create ∧ ∃ pre : String, e.name = pre ++ "eplay") →
        handleEvent create e = [Effect.goHandleReplay e.name]) ∧
      (¬ (e.op &&& create = create ∧ ∃ pre : String, e.name = pre ++ "eplay") →
        handleEvent create e = []) := by
    intro e
    rw [handleEvent_eq, ← accepted_iff]
    cases accepted create e <;> simp
  refine ⟨hacc, eventLoop_dispatches create, accepted_iff create, ?_, ?_, ?_, ?_⟩
  · intro msgs name hname hmem
    have h1 : Effect.goHandleReplay name ∈
        (eventLoop create msgs).trace.filter Effect.isDispatch :=
      List.mem_filter.2 ⟨hmem, rfl⟩
    rw [eventLoop_dispatches, List.mem_map] at h1
    obtain ⟨e, he, hn⟩ := h1
    have h2 := (accepted_iff create e).1 (List.mem_filter.1 he).2
    cases hn
    exact hname h2.2
  · rintro pre ⟨p, hp⟩
    have h : pre ++ ".SC2Replay.writeCacheBackup" =
        (pre ++ ".SC2Replay.writeCacheB") ++ "ackup" := by
      rw [String.append_assoc]; rfl
    have := suffix_unique h hp (by decide)
    exact absurd this (by decide)
  · intro pre op hop
    refine (hacc ⟨pre ++ ".SC2Replay", op⟩).1 ⟨hop, pre ++ ".SC2R", ?_⟩
    show pre ++ ".SC2Replay" = pre ++ ".SC2R" ++ "eplay"
    rw [String.append_assoc]; rfl
  · intro e
    unfold isCreate fsnotifyCreate
    rw [decide_eq_true_eq, Nat.and_one_is_mod, Nat.testBit_zero]
    simp

/-- C2 at a concrete input: a create event for a replay, a create event for
a write-cache backup, a write event for a replay and a watcher error. -/
theorem C2_event_loop_dispatch_witness :
    (eventLoop 1 [.event ⟨"a.SC2Replay", 1⟩, .event ⟨"a.SC2Replay.writeCacheBackup", 1⟩,
        .error "overflow", .event ⟨"b.SC2Replay", 2⟩, .event ⟨"c.SC2Replay", 3⟩]).trace.filter
        Effect.isDispatch =
      [Effect.goHandleReplay "a.SC2Replay", Effect.goHandleReplay "c.SC2Replay"] :=
  ((C2_event_loop_dispatch 1).2.1 [.event ⟨"a.SC2Replay", 1⟩,
    .event ⟨"a.SC2Replay.writeCacheBackup", 1⟩, .error "overflow",
    .event ⟨"b.SC2Replay", 2⟩, .event ⟨"c.SC2Replay", 3⟩]).trans (by decide)

/-! ## Choosing the replays root -/

theorem newReaderSize_one : newReaderSize 1 = 16 := by decide

/-- A newline among the first `n` bytes ends the slice. -/
theorem readSlice_line (text rest : List Nat) :
    ∀ n, text.length < n → 10 ∉ text →
      readSlice n (text ++ 10 :: rest) = some (text ++ [10], false, rest) := by
  induction text with
  | nil =>
    intro n hn _
    obtain ⟨m, rfl⟩ : ∃ m, n = m + 1 := ⟨n - 1, by simp at hn; omega⟩
    simp [readSlice]
  | cons b t ih =>
    intro n hn hmem
    obtain ⟨m, rfl⟩ : ∃ m, n = m + 1 := ⟨n - 1, by omega⟩
    have hb : b ≠ 10 := fun h => hmem (by simp [h])
    have ht : 10 ∉ t := fun h => hmem (List.mem_cons_of_mem _ h)
    have hlen : t.length < m := by simp at hn; omega
    simp [readSlice, hb, ih m hlen ht]

/-- Fewer bytes than the buffer holds and no newline: the call waits. -/
theorem readSlice_waits (tail : List Nat) :
    ∀ n, tail.length < n → 10 ∉ tail → readSlice n tail = none := by
  induction tail with
  | nil =>
    intro n hn _
    obtain ⟨m, rfl⟩ : ∃ m, n = m + 1 := ⟨n - 1, by simp at hn; omega⟩
    rfl
  | cons b t ih =>
    intro n hn hmem
    obtain ⟨m, rfl⟩ : ∃ m, n = m + 1 := ⟨n - 1, by omega⟩
    have hb : b ≠ 10 := fun h => hmem (by simp [h])
    have ht : 10 ∉ t := fun h => hmem (List.mem_cons_of_mem _ h)
    have hlen : t.length < m := by simp at hn; omega
    simp [readSlice, hb, ih m hlen ht]

/-- The slice and the bytes left are the input; a full buffer holds `n`
bytes, and a slice that is not a full buffer is not empty. -/
theorem readSlice_spec :
    ∀ (n : Nat) (unread slice rest : List Nat) (full : Bool),
      readSlice n unread = some (slice, full, rest) →
      unread = slice ++ rest ∧ (full = true → slice.length = n) ∧
        (full = false → slice ≠ []) := by
  intro n
  induction n with
  | zero =>
    intro unread slice rest full h
    simp only [readSlice, Option.some.injEq, Prod.mk.injEq] at h
    obtain ⟨rfl, rfl, rfl⟩ := h
    simp
  | succ m ih =>
    intro unread slice rest full h
    cases unread with
    | nil => simp [readSlice] at h
    | cons b bs =>
      by_cases hb : b = 10
      · simp only [readSlice, hb, if_true, Option.some.injEq, Prod.mk.injEq] at h
        obtain ⟨rfl, rfl, rfl⟩ := h
        simp [hb]
      · cases hr : readSlice m bs with
        | none => simp [readSlice, hb, hr] at h
        | some r =>
          obtain ⟨sl, fl, rs⟩ := r
          simp only [readSlice, hb, if_false, hr, Option.some.injEq, Prod.mk.injEq] at h
          obtain ⟨rfl, rfl, rfl⟩ := h
          obtain ⟨h1, h2, _⟩ := ih bs sl rs fl hr
          refine ⟨by rw [h1]; rfl, fun hf => by simp [h2 hf], fun _ => by simp⟩

/-- Every `ReadLine` that returns takes at least one byte off the input. -/
theorem readLine_shorter (n : Nat) (hn : 2 ≤ n) (unread line rest : List Nat) (pre : Bool)
    (h : readLine n unread = some (line, pre, rest)) : rest.length < unread.length := by
  unfold readLine at h
  cases hr : readSlice n unread with
  | none => simp [hr] at h
  | some r =>
    obtain ⟨sl, fl, rs⟩ := r
    obtain ⟨h1, h2, h3⟩ := readSlice_spec n unread sl rs fl hr
    have hlen : unread.length = sl.length + rs.length := by rw [h1, List.length_append]
    cases fl with
    | true =>
      have hsl := h2 rfl
      simp only [hr] at h
      split at h
      · simp only [Option.some.injEq, Prod.mk.injEq] at h
        obtain ⟨_, _, rfl⟩ := h
        simp only [List.length_cons]
        omega
      · simp only [Option.some.injEq, Prod.mk.injEq] at h
        obtain ⟨_, _, rfl⟩ := h
        omega
    | false =>
      have hsl : 0 < sl.length := List.length_pos.2 (h3 rfl)
      simp only [hr] at h
      split at h
      · split at h
        · simp only [Option.some.injEq, Prod.mk.injEq] at h
          obtain ⟨_, _, rfl⟩ := h
          omega
        · simp only [Option.some.injEq, Prod.mk.injEq] at h
          obtain ⟨_, _, rfl⟩ := h
          omega
      · simp only [Option.some.injEq, Prod.mk.injEq] at h
        obtain ⟨_, _, rfl⟩ := h
        omega

theorem inputLine_bytes_pos (l : InputLine) : 0 < l.bytes.length := by
  unfold InputLine.bytes
  cases l.crlf <;> simp

/-- A line that fits the buffer is returned whole, without its ending. -/
theorem readLine_inputLine (l : InputLine) (rest : List Nat)
    (hw : l.WellFormed) (hf : l.Fits) :
    readLine (newReaderSize 1) (l.bytes ++ rest) = some (l.text, false, rest) := by
  obtain ⟨text, crlf⟩ := l
  obtain ⟨h10, h13⟩ := hw
  unfold InputLine.Fits InputLine.bytes at hf
  rw [newReaderSize_one] at hf ⊢
  simp only at h10 h13 hf
  cases crlf with
  | false =>
    have hlen : text.length < 16 := by simp at hf; omega
    have hs := readSlice_line text rest 16 hlen h10
    have e : InputLine.bytes ⟨text, false⟩ ++ rest = text ++ 10 :: rest := by
      simp [InputLine.bytes]
    rw [e]
    unfold readLine
    simp only [hs]
    simp [h13 rfl]
  | true =>
    have hlen : (text ++ [13]).length < 16 := by simp at hf ⊢; omega
    have hmem : 10 ∉ text ++ [13] := by simp [h10]
    have hs := readSlice_line (text ++ [13]) rest 16 hlen hmem
    have e : InputLine.bytes ⟨text, true⟩ ++ rest = (text ++ [13]) ++ 10 :: rest := by
      simp [InputLine.bytes]
    rw [e]
    unfold readLine
    simp only [hs]
    simp

/-- A round whose line is no valid choice only causes another round. -/
theorem promptLoopFuel_invalid (atoi : List Nat → Option Int) (roots : List String)
    (size fuel : Nat) (stdin input rest : List Nat) (pre : Bool)
    (hr : readLine size stdin = some (input, pre, rest))
    (h : ¬ ValidChoice atoi roots.length input) :
    promptLoopFuel atoi roots size (fuel + 1) stdin =
      (Effect.printf "Your Choice [1-%d]: " [toString roots.length] :: Effect.readLine ::
        (promptLoopFuel atoi roots size fuel rest).1,
       (promptLoopFuel atoi roots size fuel rest).2) := by
  unfold ValidChoice at h
  cases ha : atoi input with
  | none => simp [promptLoopFuel, hr, ha]
  | some c =>
    have hc : ¬ (c > 0 ∧ c - 1 < (roots.length : Int)) := by
      rintro ⟨h1, h2⟩
      exact h ⟨c, ha, by omega, by omega⟩
    simp [promptLoopFuel, hr, ha, hc]

/-- A round whose line is a valid choice ends the loop with the root of
that number. -/
theorem promptLoopFuel_valid (atoi : List Nat → Option Int) (roots : List String)
    (size fuel : Nat) (stdin input rest : List Nat) (pre : Bool) (c : Int)
    (hr : readLine size stdin = some (input, pre, rest))
    (ha : atoi input = some c) (h1 : 1 ≤ c) (h2 : c ≤ (roots.length : Int)) :
    ∃ hlt : (c - 1).toNat < roots.length,
      promptLoopFuel atoi roots size (fuel + 1) stdin =
        ([Effect.printf "Your Choice [1-%d]: " [toString roots.length], Effect.readLine],
          .returned roots[(c - 1).toNat]) := by
  have hlt : (c - 1).toNat < roots.length := by omega
  refine ⟨hlt, ?_⟩
  have hc : c > 0 ∧ c - 1 < (roots.length : Int) := ⟨by omega, by omega⟩
  simp only [promptLoopFuel, hr, ha, hc, and_self, if_true, List.getElem?_eq_getElem hlt]

theorem promptLoopFuel_never_panics (atoi : List Nat → Option Int) (roots : List String)
    (size : Nat) :
    ∀ (fuel : Nat) (stdin : List Nat),
      (promptLoopFuel atoi roots size fuel stdin).2 ≠ .panicked := by
  intro fuel
  induction fuel with
  | zero => intro stdin; simp [promptLoopFuel]
  | succ fuel ih =>
    intro stdin
    cases hr : readLine size stdin with
    | none => simp [promptLoopFuel, hr]
    | some r =>
      obtain ⟨input, pre, rest⟩ := r
      by_cases h : ValidChoice atoi roots.length input
      · obtain ⟨c, ha, h1, h2⟩ := h
        obtain ⟨_, heq⟩ :=
          promptLoopFuel_valid atoi roots size fuel stdin input rest pre c hr ha h1 h2
        rw [heq]
        simp
      · rw [promptLoopFuel_invalid atoi roots size fuel stdin input rest pre hr h]
        exact ih rest

/-- More fuel than there are bytes is never used up: the run is the same
for any two such amounts. -/
theorem promptLoopFuel_enough (atoi : List Nat → Option Int) (roots : List String)
    (size : Nat) (hsize : 2 ≤ size) :
    ∀ (fuel fuel2 : Nat) (stdin : List Nat), stdin.length < fuel → stdin.length < fuel2 →
      promptLoopFuel atoi roots size fuel stdin =
        promptLoopFuel atoi roots size fuel2 stdin := by
  intro fuel
  induction fuel with
  | zero => intro fuel2 stdin h; omega
  | succ fuel ih =>
    intro fuel2 stdin h1 h2
    obtain ⟨f2, rfl⟩ : ∃ f2, fuel2 = f2 + 1 := ⟨fuel2 - 1, by omega⟩
    cases hr : readLine size stdin with
    | none => simp [promptLoopFuel, hr]
    | some r =>
      obtain ⟨input, pre, rest⟩ := r
      have hlt := readLine_shorter size hsize stdin input rest pre hr
      by_cases h : ValidChoice atoi roots.length input
      · obtain ⟨c, ha, hc1, hc2⟩ := h
        obtain ⟨_, heq⟩ :=
          promptLoopFuel_valid atoi roots size fuel stdin input rest pre c hr ha hc1 hc2
        obtain ⟨_, heq2⟩ :=
          promptLoopFuel_valid atoi roots size f2 stdin input rest pre c hr ha hc1 hc2
        rw [heq, heq2]
      · rw [promptLoopFuel_invalid atoi roots size fuel stdin input rest pre hr h,
          promptLoopFuel_invalid atoi roots size f2 stdin input rest pre hr h,
          ih f2 rest (by omega) (by omega)]

/-- Lines that fit the buffer and are no valid choice, followed by a line
that fits and is one: the loop ends at that line. -/
theorem promptLoopFuel_first_valid (atoi : List Nat → Option Int) (roots : List String)
    (good : InputLine) (rest : List Nat) (c : Int)
    (hgw : good.WellFormed) (hgf : good.Fits)
    (ha : atoi good.text = some c) (h1 : 1 ≤ c) (h2 : c ≤ (roots.length : Int)) :
    ∀ (bad : List InputLine) (fuel : Nat),
      (∀ l ∈ bad, l.WellFormed ∧ l.Fits ∧ ¬ ValidChoice atoi roots.length l.text) →
      (stdinOf bad ++ (good.bytes ++ rest)).length < fuel →
      ∃ hlt : (c - 1).toNat < roots.length,
        promptLoopFuel atoi roots (newReaderSize 1) fuel
            (stdinOf bad ++ (good.bytes ++ rest)) =
          (promptTrace roots.length (bad.length + 1), .returned roots[(c - 1).toNat]) := by
  intro bad
  induction bad with
  | nil =>
    intro fuel _ hfuel
    obtain ⟨f, rfl⟩ : ∃ f, fuel = f + 1 := ⟨fuel - 1, by omega⟩
    obtain ⟨hlt, heq⟩ := promptLoopFuel_valid atoi roots (newReaderSize 1) f
      (good.bytes ++ rest) good.text rest false c (readLine_inputLine good rest hgw hgf)
      ha h1 h2
    exact ⟨hlt, by simpa [stdinOf, promptTrace] using heq⟩
  | cons l bad ih =>
    intro fuel hbad hfuel
    obtain ⟨f, rfl⟩ : ∃ f, fuel = f + 1 := ⟨fuel - 1, by omega⟩
    obtain ⟨hw, hf, hinv⟩ := hbad l (List.mem_cons_self _ _)
    have e : stdinOf (l :: bad) ++ (good.bytes ++ rest) =
        l.bytes ++ (stdinOf bad ++ (good.bytes ++ rest)) := by
      simp [stdinOf]
    have hpos := inputLine_bytes_pos l
    rw [e] at hfuel ⊢
    rw [List.length_append] at hfuel
    obtain ⟨hlt, heq⟩ := ih f (fun x hx => hbad x (List.mem_cons_of_mem _ hx)) (by omega)
    refine ⟨hlt, ?_⟩
    rw [promptLoopFuel_invalid atoi roots (newReaderSize 1) f _ l.text _ false
      (readLine_inputLine l _ hw hf) hinv, heq]
    rfl

/-- Lines that fit the buffer and are no valid choice, followed by the
start of a line that is not ended yet: the loop waits for input. -/
theorem promptLoopFuel_all_invalid (atoi : List Nat → Option Int) (roots : List String)
    (tail : List Nat) (htl : tail.length < newReaderSize 1) (ht10 : 10 ∉ tail) :
    ∀ (bad : List InputLine) (fuel : Nat),
      (∀ l ∈ bad, l.WellFormed ∧ l.Fits ∧ ¬ ValidChoice atoi roots.length l.text) →
      (stdinOf bad ++ tail).length < fuel →
      promptLoopFuel atoi roots (newReaderSize 1) fuel (stdinOf bad ++ tail) =
        (promptTrace roots.length bad.length, .pending) := by
  intro bad
  induction bad with
  | nil =>
    intro fuel _ hfuel
    obtain ⟨f, rfl⟩ : ∃ f, fuel = f + 1 := ⟨fuel - 1, by omega⟩
    have hr : readLine (newReaderSize 1) tail = none := by
      unfold readLine
      rw [readSlice_waits tail _ htl ht10]
    simp [stdinOf, promptLoopFuel, hr, promptTrace]
  | cons l bad ih =>
    intro fuel hbad hfuel
    obtain ⟨f, rfl⟩ : ∃ f, fuel = f + 1 := ⟨fuel - 1, by omega⟩
    obtain ⟨hw, hf, hinv⟩ := hbad l (List.mem_cons_self _ _)
    have e : stdinOf (l :: bad) ++ tail = l.bytes ++ (stdinOf bad ++ tail) := by
      simp [stdinOf]
    have hpos := inputLine_bytes_pos l
    rw [e] at hfuel ⊢
    rw [List.length_append] at hfuel
    rw [promptLoopFuel_invalid atoi roots (newReaderSize 1) f _ l.text _ false
      (readLine_inputLine l _ hw hf) hinv,
      ih f (fun x hx => hbad x (List.mem_cons_of_mem _ hx)) (by omega)]
    rfl

theorem findReplaysRoot_many (atoi : List Nat → Option Int) (wrapped : String)
    (roots : List String) (stdin : List Nat) (hn : 2 ≤ roots.length) :
    findReplaysRoot atoi wrapped roots none stdin =
      (rootsBanner wrapped roots ++ (promptLoop atoi roots stdin).1,
        (promptLoop atoi roots stdin).2) := by
  have h0 : ¬ roots.length = 0 := by omega
  have h1 : roots.length > 1 := by omega
  have h2 : roots[0]? = some roots[0] := List.getElem?_eq_getElem (by omega)
  simp [findReplaysRoot, h0, h1, h2]

theorem findReplaysRoot_never_panics (atoi : List Nat → Option Int) (wrapped : String)
    (roots : List String) (err : Option GoError) (stdin : List Nat) :
    (findReplaysRoot atoi wrapped roots err stdin).2 ≠ .panicked := by
  unfold findReplaysRoot
  by_cases h : err.isSome = true ∨ roots.length = 0
  · rw [if_pos h]
    simp
  · have h0 : 0 < roots.length := by
      rcases Nat.eq_zero_or_pos roots.length with h0 | h0
      · exact absurd (Or.inr h0) h
      · exact h0
    rw [if_neg h, List.getElem?_eq_getElem h0]
    by_cases h1 : roots.length > 1
    · simp only [h1, if_true]
      exact promptLoopFuel_never_panics atoi roots _ _ stdin
    · simp [h1]

theorem not_validChoice_iff (atoi : List Nat → Option Int) (n : Nat) (line : List Nat) :
    ¬ ValidChoice atoi n line ↔
      (atoi line = none ∨ ∃ c : Int, atoi line = some c ∧ (c ≤ 0 ∨ c > (n : Int))) := by
  unfold ValidChoice
  cases atoi line with
  | none => simp
  | some c =>
    simp only [Option.some.injEq, exists_eq_left', false_or, reduceCtorEq]
    omega

/-- C9 as amended: when the scan of `findReplaysRoot` returns two or more
roots and every input line fits the 16-byte buffer of the console reader
together with its line ending (at most 15 bytes before a newline, at most 14
before carriage return and newline), the function returns `roots[c-1]` for
the value `c` of the first line that `strconv.Atoi` parses to an integer
with `1 <= c <= N`, after one prompt per line read; what is typed after that
line is not read.  A line before that one (not parsable, or with a value of
0 or less, or above `N`) only causes another prompt; as long as all lines
are like that the function stays in the prompt loop, however many there
are.  The index `c - 1` is within the bounds of `roots`, and no input
whatever makes the function index out of range.  With one root the function
returns `roots[0]` without a prompt and without reading.  The bound on the
rounds of the model is never reached. -/
theorem C9_choose_root (atoi : List Nat → Option Int) (wrapped : String)
    (roots : List String) :
    (∀ (bad : List InputLine) (good : InputLine) (rest : List Nat) (c : Int),
      2 ≤ roots.length →
      (∀ l ∈ bad, l.WellFormed ∧ l.Fits ∧ ¬ ValidChoice atoi roots.length l.text) →
      good.WellFormed → good.Fits →
      atoi good.text = some c → 1 ≤ c → c ≤ (roots.length : Int) →
      ∃ hlt : (c - 1).toNat < roots.length,
        findReplaysRoot atoi wrapped roots none (stdinOf bad ++ (good.bytes ++ rest)) =
          (rootsBanner wrapped roots ++ promptTrace roots.length (bad.length + 1),
            .returned roots[(c - 1).toNat])) ∧
    (∀ (bad : List InputLine) (tail : List Nat), 2 ≤ roots.length →
      (∀ l ∈ bad, l.WellFormed ∧ l.Fits ∧ ¬ ValidChoice atoi roots.length l.text) →
      tail.length < 16 → 10 ∉ tail →
      findReplaysRoot atoi wrapped roots none (stdinOf bad ++ tail) =
        (rootsBanner wrapped roots ++ promptTrace roots.length bad.length, .pending)) ∧
    (∀ (line : List Nat), ¬ ValidChoice atoi roots.length line ↔
      (atoi line = none ∨
        ∃ c : Int, atoi line = some c ∧ (c ≤ 0 ∨ c > (roots.length : Int)))) ∧
    (∀ (err : Option GoError) (stdin : List Nat),
      (findReplaysRoot atoi wrapped roots err stdin).2 ≠ .panicked) ∧
    (∀ (root : String) (stdin : List Nat),
      findReplaysRoot atoi wrapped [root] none stdin = ([], .returned root)) ∧
    (∀ (fuel : Nat) (stdin : List Nat), stdin.length < fuel →
      promptLoopFuel atoi roots (newReaderSize 1) fuel stdin = promptLoop atoi roots stdin) := by
  refine ⟨?_, ?_, not_validChoice_iff atoi roots.length,
    findReplaysRoot_never_panics atoi wrapped roots, ?_, ?_⟩
  · intro bad good rest c hn hbad hgw hgf ha h1 h2
    obtain ⟨hlt, heq⟩ := promptLoopFuel_first_valid atoi roots good rest c hgw hgf ha h1 h2
      bad ((stdinOf bad ++ (good.bytes ++ rest)).length + 1) hbad (Nat.lt_succ_self _)
    refine ⟨hlt, ?_⟩
    rw [findReplaysRoot_many atoi wrapped roots _ hn]
    unfold promptLoop
    rw [heq]
  · intro bad tail hn hbad htl ht10
    have heq := promptLoopFuel_all_invalid atoi roots tail
      (by rw [newReaderSize_one]; exact htl) ht10
      bad ((stdinOf bad ++ tail).length + 1) hbad (Nat.lt_succ_self _)
    rw [findReplaysRoot_many atoi wrapped roots _ hn]
    unfold promptLoop
    rw [heq]
  · intro root stdin
    simp [findReplaysRoot]
  · intro fuel stdin hfuel
    unfold promptLoop
    exact promptLoopFuel_enough atoi roots (newReaderSize 1)
      (by rw [newReaderSize_one]; omega) fuel (stdin.length + 1) stdin hfuel
      (Nat.lt_succ_self _)

/-- C9 as amended, at a concrete input: two roots, and the lines `x` (ended
by a newline), `3` (ended by carriage return and newline) and `2`, with `1`
typed after them. -/
theorem C9_choose_root_witness :
    ∃ hlt : ((2 : Int) - 1).toNat < ["/a", "/b"].length,
      findReplaysRoot goAtoi "banner" ["/a", "/b"] none
          (stdinOf [⟨asciiBytes "x", false⟩, ⟨asciiBytes "3", true⟩] ++
            (InputLine.bytes ⟨asciiBytes "2", false⟩ ++ asciiBytes "1\n")) =
        (rootsBanner "banner" ["/a", "/b"] ++ promptTrace ["/a", "/b"].length (2 + 1),
          .returned (["/a", "/b"][((2 : Int) - 1).toNat])) :=
  (C9_choose_root goAtoi "banner" ["/a", "/b"]).1
    [⟨asciiBytes "x", false⟩, ⟨asciiBytes "3", true⟩] ⟨asciiBytes "2", false⟩
    (asciiBytes "1\n") 2 (by decide)
    (by
      intro l hl
      simp only [List.mem_cons, List.mem_singleton, List.not_mem_nil, or_false] at hl
      rcases hl with rfl | rfl
      · refine ⟨by decide, by decide, ?_⟩
        rintro ⟨c, hc, _, _⟩
        have h3 : goAtoi (asciiBytes "x") = none := by decide
        rw [show (InputLine.mk (asciiBytes "x") false).text = asciiBytes "x" from rfl, h3] at hc
        cases hc
      · refine ⟨by decide, by decide, ?_⟩
        rintro ⟨c, hc, _, h2⟩
        have h3 : goAtoi (asciiBytes "3") = some 3 := by decide
        rw [show (InputLine.mk (asciiBytes "3") true).text = asciiBytes "3" from rfl, h3] at hc
        have : c = 3 := (Option.some.inj hc).symm
        subst this
        exact absurd h2 (by decide))
    (by decide) (by decide) (by decide) (by decide) (by decide)

/-- C9 as stated fails: with two roots, the operator types the line
`10000000000000002` and then the line `1`.  `strconv.Atoi` parses the first
line to 10000000000000002, which is above 2, and the second line to 1, so
by the claim the function returns `roots[0]`.  The console reader hands the
first line over in two pieces, `1000000000000000` and `2`, and the function
returns `roots[1]`. -/
theorem C9_counterexample :
    goAtoi (asciiBytes "10000000000000002") = some 10000000000000002 ∧
    goAtoi (asciiBytes "1") = some 1 ∧
    readLine (newReaderSize 1) (asciiBytes "10000000000000002\n1\n") =
      some (asciiBytes "1000000000000000", true, asciiBytes "2\n1\n") ∧
    stdinOf [⟨asciiBytes "10000000000000002", false⟩, ⟨asciiBytes "1", false⟩] =
      asciiBytes "10000000000000002\n1\n" ∧
    (findReplaysRoot goAtoi "banner" ["/a", "/b"] none
      (stdinOf [⟨asciiBytes "10000000000000002", false⟩, ⟨asciiBytes "1", false⟩])).2
      = .returned "/b" ∧
    ¬ ChoiceByFirstValidLine goAtoi "banner" ["/a", "/b"]
        [⟨asciiBytes "10000000000000002", false⟩, ⟨asciiBytes "1", false⟩] := by
  refine ⟨by decide, by decide, by decide, by decide, by decide, ?_⟩
  intro h
  obtain ⟨root, hroot, hres⟩ := h [⟨asciiBytes "10000000000000002", false⟩]
    ⟨asciiBytes "1", false⟩ [] 1 rfl
    (by
      intro l hl
      simp only [List.mem_singleton] at hl
      subst hl
      rintro ⟨c, hc, _, h2⟩
      have h3 : goAtoi (asciiBytes "10000000000000002") = some 10000000000000002 := by
        decide
      rw [show (InputLine.mk (asciiBytes "10000000000000002") false).text =
        asciiBytes "10000000000000002" from rfl, h3] at hc
      have : c = 10000000000000002 := (Option.some.inj hc).symm
      subst this
      exact absurd h2 (by decide))
    (by decide) (by decide) (by decide)
  have hb : (findReplaysRoot goAtoi "banner" ["/a", "/b"] none
      (stdinOf [⟨asciiBytes "10000000000000002", false⟩, ⟨asciiBytes "1", false⟩])).2
      = .returned "/b" := by decide
  rw [hb] at hres
  have hroot2 : root = "/a" := by
    have : (["/a", "/b"] : List String)[((1 : Int) - 1).toNat]? = some "/a" := by decide
    rw [this] at hroot
    exact (Option.some.inj hroot).symm
  subst hroot2
  exact absurd hres (by decide)

/-! ## The watch paths -/

theorem collectPaths_eq (env : WatchEnv) (root : String) (accs : List String) :
    collectPaths env root accs =
      (accs.map fun a => env.join [root, a, "Replays", "Multiplayer"]).filter env.isDir := by
  induction accs with
  | nil => rfl
  | cons a accs ih =>
    simp only [collectPaths, List.map_cons, List.filter_cons, ih]

theorem scanAccounts_returned {env : WatchEnv} {root : String} {paths : List String}
    (h : (scanAccounts env root).2 = .returned paths) :
    (env.enumerateAccounts root).2 = none ∧
    paths = ((env.enumerateAccounts root).1.map
      fun a => env.join [root, a, "Replays", "Multiplayer"]).filter env.isDir := by
  unfold scanAccounts at h
  cases he : (env.enumerateAccounts root).2 with
  | some err => simp [he] at h
  | none =>
    simp only [he, Outcome.returned.injEq] at h
    exact ⟨rfl, by rw [← h, collectPaths_eq]⟩

theorem addPaths_no_error (paths : List String) :
    (addPaths (fun _ => none) paths).2 = .returned () := by
  induction paths with
  | nil => rfl
  | cons p ps ih => simpa [addPaths] using ih

theorem newWatcher_no_error (paths : List String) :
    (newWatcher none (fun _ => none) paths).2 = .returned paths := by
  have h := addPaths_no_error paths
  unfold newWatcher
  generalize addPaths (fun _ => none) paths = r at h
  obtain ⟨tr, o⟩ := r
  simp only at h
  subst h
  rfl

/-- What `getWatchPaths` returns when it returns without an error. -/
theorem getWatchPaths_returned {env : WatchEnv} {found : List Effect × Outcome String}
    {paths : List String} (h : (getWatchPaths env found).2 = .returned paths) :
    ∃ root,
      ((env.isDir env.replaysRoot = true ∧ root = env.replaysRoot) ∨
        (env.isDir env.replaysRoot = false ∧ found.2 = .returned root ∧
          env.saveConfig = none)) ∧
      (env.enumerateAccounts root).2 = none ∧
      paths = ((env.enumerateAccounts root).1.map
        fun a => env.join [root, a, "Replays", "Multiplayer"]).filter env.isDir := by
  unfold getWatchPaths at h
  by_cases hd : env.isDir env.replaysRoot = true
  · simp only [hd, not_true_eq_false, if_false] at h
    exact ⟨env.replaysRoot, Or.inl ⟨hd, rfl⟩, scanAccounts_returned h⟩
  · have hd2 : env.isDir env.replaysRoot = false := by simpa using hd
    simp only [hd, not_false_eq_true, if_true] at h
    cases hf : found.2 with
    | failed err => simp [hf] at h
    | fatal msg => simp [hf] at h
    | pending => simp [hf] at h
    | panicked => simp [hf] at h
    | returned root =>
      cases hs : env.saveConfig with
      | some err => simp [hf, hs] at h
      | none =>
        simp only [hf, hs] at h
        exact ⟨root, Or.inr ⟨hd2, rfl, rfl⟩, scanAccounts_returned h⟩

/-- C10 as amended: when `getWatchPaths` returns without an error, the list
it returns holds exactly the `Replays/Multiplayer` directories of the
enumerated accounts that exist, in the order of the accounts, under the
configured root or, when that is no directory, under the root that
`findReplaysRoot` returned and `saveConfig` saved.  The list may be empty,
and it is empty when no account is enumerated.  With a valid key and a
watcher that can be set up, `rootCmd.RunE` starts the watcher and the event
loop on that list, whatever its length.  A failure of `findReplaysRoot` ends
the process, and an error of `saveConfig` or of `EnumerateAccounts` is
returned as an error. -/
theorem C10_watch_paths_returned (env : WatchEnv) (found : List Effect × Outcome String)
    (paths : List String) (h : (getWatchPaths env found).2 = .returned paths) :
    (∃ root,
      ((env.isDir env.replaysRoot = true ∧ root = env.replaysRoot) ∨
        (env.isDir env.replaysRoot = false ∧ found.2 = .returned root ∧
          env.saveConfig = none)) ∧
      (env.enumerateAccounts root).2 = none ∧
      paths = ((env.enumerateAccounts root).1.map
        fun a => env.join [root, a, "Replays", "Multiplayer"]).filter env.isDir ∧
      ((env.enumerateAccounts root).1 = [] → paths = [])) ∧
    (∀ (key : String) (validAPIKey : String → Bool), key ≠ "" → validAPIKey key = true →
      runEStart key validAPIKey env found none (fun _ => none) = .watching paths) ∧
    (∀ (env2 : WatchEnv) (found2 : List Effect) (err : GoError),
      env2.isDir env2.replaysRoot = false →
      (getWatchPaths env2 (found2, .failed err)).2 = .fatal err) ∧
    (∀ (env2 : WatchEnv) (found2 : List Effect) (root : String) (err : GoError),
      env2.isDir env2.replaysRoot = false → env2.saveConfig = some err →
      (getWatchPaths env2 (found2, .returned root)).2 = .failed err) ∧
    (∀ (env2 : WatchEnv) (f2 : List Effect × Outcome String) (err : GoError),
      env2.isDir env2.replaysRoot = true →
      (env2.enumerateAccounts env2.replaysRoot).2 = some err →
      (getWatchPaths env2 f2).2 = .failed ("getWatchPaths: " ++ err)) := by
  refine ⟨?_, ?_, ?_, ?_, ?_⟩
  · obtain ⟨root, h1, h2, h3⟩ := getWatchPaths_returned h
    refine ⟨root, h1, h2, h3, fun he => ?_⟩
    rw [h3, he]
    rfl
  · intro key validAPIKey hk hv
    unfold runEStart
    simp [hk, hv, h, newWatcher_no_error]
  · intro env2 found2 err hd
    simp [getWatchPaths, hd]
  · intro env2 found2 root err hd hs
    simp [getWatchPaths, hd, hs]
  · intro env2 f2 err hd he
    simp [getWatchPaths, hd, scanAccounts, he]

/-- C10 as amended, at a concrete input: one enumerated account whose
`Replays/Multiplayer` directory does not exist gives the empty list. -/
theorem C10_watch_paths_returned_witness :
    runEStart "key" (fun _ => true) (bareRootEnv ["1-S2-1-123"]) ([], .pending) none
      (fun _ => none) = .watching [] :=
  (C10_watch_paths_returned (bareRootEnv ["1-S2-1-123"]) ([], .pending) [] (by decide)).2.1
    "key" (fun _ => true) (by decide) rfl

/-- C10 as stated fails: with a configured root that is a directory and an
account scan that returns no accounts and no error, `getWatchPaths` returns
the empty list without an error and `rootCmd.RunE` starts the watcher and
the event loop on zero watch paths. -/
theorem C10_counterexample :
    (getWatchPaths (bareRootEnv []) ([], .pending)).2 = .returned [] ∧
    runEStart "key" (fun _ => true) (bareRootEnv []) ([], .pending) none (fun _ => none)
      = .watching [] := by
  constructor <;> decide

end Sc2Rsu
